import Mathlib

/-!
Shallow embedding of `nnUNetTrainerMultiTask`
(`src/nnunetv2/nnunetv2/training/nnUNetTrainer/nnUNetTrainerMultiTask.py`).

Machine floats carrying count and loss values are modelled as rationals; an
IEEE NaN is modelled as `none` in `Option ℚ`.  The trainer configuration
embedded here is the one this subclass actually runs with: no deep
supervision (its base class is `nnUNetTrainerNoDeepSupervision`), a standard
multi-class label space (`has_regions = False`) and no ignore label, so the
`mask = None` path of the validation step is the one embedded.
-/

attribute [local semireducible] Rat.mul Rat.inv Rat.add

namespace MultiTaskTrainer

/-- Decidable equality for `Except`, used to evaluate the embedded,
fallible functions on concrete inputs. -/
instance {ε α : Type} [DecidableEq ε] [DecidableEq α] : DecidableEq (Except ε α) := fun a b =>
  match a, b with
  | .error e, .error f =>
    if h : e = f then .isTrue (by rw [h]) else .isFalse (fun hc => h (by cases hc; rfl))
  | .ok x, .ok y =>
    if h : x = y then .isTrue (by rw [h]) else .isFalse (fun hc => h (by cases hc; rfl))
  | .error _, .ok _ => .isFalse (fun hc => nomatch hc)
  | .ok _, .error _ => .isFalse (fun hc => nomatch hc)

/-- NaN-aware rational value: `none` models an IEEE NaN. -/
abbrev RQ := Option ℚ

/-- Value of `np.mean` on a one-dimensional array: the arithmetic mean, NaN on
an empty array. -/
def npMean (xs : List ℚ) : RQ :=
  if xs.isEmpty then none else some (xs.sum / xs.length)

/-- Value of `np.nanmean`: the mean of the non-NaN entries, NaN when every
entry is NaN. -/
def npNanMean (xs : List RQ) : RQ :=
  if (xs.filterMap id).isEmpty then none
  else some ((xs.filterMap id).sum / (xs.filterMap id).length)

/-- Elementwise sum of two count vectors (operands always have equal length
where this is used; no broadcasting occurs in the source). -/
def vadd (a b : List ℕ) : List ℕ := List.zipWith (· + ·) a b

/-- Value of `np.vstack(rows).sum(0)` for a rectangular stack of width `c`. -/
def sumColsW (c : ℕ) (rows : List (List ℕ)) : List ℕ :=
  rows.foldr vadd (List.replicate c 0)

/-- Width of a stacked array, read off its first row. -/
def vWidth (rows : List (List ℕ)) : ℕ := (rows.headD []).length

/-- Value of `np.sum(stack, 0)` over the rows of a rectangular stack. -/
def sumCols (rows : List (List ℕ)) : List ℕ := sumColsW (vWidth rows) rows

/-- Whether stacking these rows with `np.vstack` is legal; `np.vstack` raises
a `ValueError` on rows of unequal length. -/
def rect (rows : List (List ℕ)) : Bool :=
  match rows with
  | [] => true
  | r :: rs => rs.all fun x => x.length == r.length

/-- Dynamically-typed value in the network-output position: a segmentation
logit tensor indexed `[sample][channel][pixel]` (spatial axes flattened), a
classification logit tensor indexed `[sample][class]`, or a Python dict. -/
inductive PyVal where
  | seg (t : List (List (List ℚ)))
  | cls (t : List (List ℚ))
  | dict (entries : List (String × PyVal))

/-- One batch as handed to `train_step` / `validation_step`: the input tensor,
the segmentation target (class index per pixel; the singleton channel axis of
the `(b, 1, *)` layout is elided) and the per-sample class target. -/
structure Batch where
  data : List (List (List ℚ))
  target : List (List ℕ)
  class_target : List ℕ

/-- The two collaborators a step touches: `self.network` and the loss functor
`self.loss`, which receives `(seg_output, target_seg, cls_output, target_cls)`
and returns a mapping of named loss components. -/
structure VTrainer where
  network : List (List (List ℚ)) → PyVal
  lossFn : PyVal → List (List ℕ) → Option PyVal → List ℕ → List (String × ℚ)

/-- Which tensor an `all_gather_object` call in `on_validation_epoch_end`
carries. -/
inductive GatherTag where
  | tpTag | fpTag | fnTag | lossTag | segLossTag | clsLossTag
  | clsTpTag | clsFpTag | clsFnTag | clsTnTag | clsCorrectTag | clsTotalTag
deriving DecidableEq

/-- Observable side effects of the embedded methods. -/
inductive Effect where
  | pdbSetTrace
  | zeroGrad
  | backward
  | optimizerStep
  | allGather (t : GatherTag)
deriving DecidableEq

/-- Python dict key lookup on an association list. -/
def dictLookup (es : List (String × PyVal)) (k : String) : Option PyVal :=
  (es.find? fun e => e.1 == k).map (·.2)

/-- Lines 128-133 / 157-161: `if isinstance(output, dict) and len(output) == 2:
seg_output, cls_output = (output['segmentation'], output['classification'])`
with the fallback `seg_output = output; cls_output = None`.  A two-entry dict
missing one of the two keys raises a `KeyError` (the subscript on the
`'segmentation'` key is evaluated first). -/
def splitNetworkOutput (o : PyVal) : Except String (PyVal × Option PyVal) :=
  match o with
  | .dict es =>
    if es.length = 2 then
      match dictLookup es "segmentation" with
      | none => .error ("KeyError: segmentation")
      | some s =>
        match dictLookup es "classification" with
        | none => .error ("KeyError: classification")
        | some c => .ok (s, some c)
    else .ok (.dict es, none)
  | o => .ok (o, none)

/-- Maximum entry of a list of scores (only used on nonempty rows). -/
def maxVal : List ℚ → ℚ
  | [] => 0
  | [x] => x
  | x :: y :: r => max x (maxVal (y :: r))

/-- Index of the first maximal entry, the semantics of `torch.argmax`. -/
def argmaxIdx : List ℚ → ℕ
  | [] => 0
  | [_] => 0
  | x :: y :: r => if x < maxVal (y :: r) then argmaxIdx (y :: r) + 1 else 0

/-- Number of (flattened) spatial positions of one sample's logit block. -/
def numPixels (channels : List (List ℚ)) : ℕ := (channels.headD []).length

/-- Line 182, `seg_output.argmax(1)` for one sample: the per-pixel argmax over
the channel axis. -/
def segPredSample (channels : List (List ℚ)) : List ℕ :=
  (List.range (numPixels channels)).map fun p => argmaxIdx (channels.map fun ch => ch.getD p 0)

/-- Per-pixel argmax predictions for the whole batch. -/
def segPred (t : List (List (List ℚ))) : List (List ℕ) := t.map segPredSample

/-- The channel count `seg_output.shape[1]`. -/
def numSegChannels (t : List (List (List ℚ))) : ℕ := (t.headD []).length

/-- All (predicted class, target class) pixel pairs, pooling the batch and
spatial axes exactly as `axes = [0] + list(range(2, ndim))` does. -/
def pixPairs (pred tgt : List (List ℕ)) : List (ℕ × ℕ) :=
  ((pred.zip tgt).map fun s => s.1.zip s.2).flatten

/-- Per-channel count of pixel pairs satisfying a membership pattern; this is
`get_tp_fp_fn_tn` (line 207) on the one-hot prediction against the integer
target, which it one-hot encodes channelwise as `target == c`. -/
def segCount (t : List (List (List ℚ))) (tgt : List (List ℕ)) (f : Bool → Bool → Bool) : List ℕ :=
  (List.range (numSegChannels t)).map fun c =>
    (pixPairs (segPred t) tgt).countP fun x => f (x.1 == c) (x.2 == c)

/-- `tp_hard` of the validation step: true positives per channel, background
channel dropped (`tp_hard[1:]`, line 220). -/
def segTpHard (t : List (List (List ℚ))) (tgt : List (List ℕ)) : List ℕ :=
  (segCount t tgt fun a b => a && b).drop 1

/-- `fp_hard` of the validation step (line 221). -/
def segFpHard (t : List (List (List ℚ))) (tgt : List (List ℕ)) : List ℕ :=
  (segCount t tgt fun a b => a && !b).drop 1

/-- `fn_hard` of the validation step (line 222). -/
def segFnHard (t : List (List (List ℚ))) (tgt : List (List ℕ)) : List ℕ :=
  (segCount t tgt fun a b => !a && b).drop 1

/-- The classification metrics block of the validation step (lines 248-255). -/
structure ClsCounts where
  cls_tp : List ℕ
  cls_fp : List ℕ
  cls_fn : List ℕ
  cls_tn : List ℕ
  cls_correct : ℕ
  cls_total : ℕ
deriving DecidableEq

/-- Lines 226-255: per-class one-vs-rest confusion counts over the batch.
`cls_pred = argmax(cls_output, dim=1)`, `num_classes = cls_output.shape[1]`,
and for each class index the four counts, plus the correct and total counts. -/
def clsConfusion (rows : List (List ℚ)) (target : List ℕ) : ClsCounts :=
  let pred := rows.map argmaxIdx
  let pt := pred.zip target
  let K := (rows.headD []).length
  { cls_tp := (List.range K).map fun c => pt.countP fun x => x.1 == c && x.2 == c
    cls_fp := (List.range K).map fun c => pt.countP fun x => x.1 == c && !(x.2 == c)
    cls_fn := (List.range K).map fun c => pt.countP fun x => !(x.1 == c) && x.2 == c
    cls_tn := (List.range K).map fun c => pt.countP fun x => !(x.1 == c) && !(x.2 == c)
    cls_correct := pt.countP fun x => x.1 == x.2
    cls_total := target.length }

/-- The mapping returned by one validation step (lines 258-266). -/
structure StepResult where
  loss : ℚ
  seg_loss : ℚ
  cls_loss : ℚ
  tp_hard : List ℕ
  fp_hard : List ℕ
  fn_hard : List ℕ
  cls : Option ClsCounts
deriving DecidableEq

/-- Python `loss_dict.get(k, 0.0)` on the loss mapping (lines 259-261); the
`.detach().cpu().numpy()` conversions do not change the carried value. -/
def lget (d : List (String × ℚ)) (k : String) : ℚ :=
  match d.find? fun e => e.1 == k with
  | some e => e.2
  | none => 0

/-- Lines 144-269, `validation_step`: forward pass, output split, loss
mapping, segmentation counts (argmax one-hot against the target, background
dropped), classification confusion counts when a classification output
exists, and the combined result.  The returned effect list records the
`pdb.set_trace()` breakpoint of lines 267-268.  A fallback `seg_output` that
is not a segmentation tensor fails at the metric computation (line 176,
`seg_output_for_metrics.ndim` on a non-tensor); a classification value of the
wrong shape is outside the modelled scope and also treated as an error. -/
def validation_step (tr : VTrainer) (batch : Batch) : Except String (StepResult × List Effect) :=
  match splitNetworkOutput (tr.network batch.data) with
  | .error e => .error e
  | .ok (seg_output, cls_output) =>
    let loss_dict := tr.lossFn seg_output batch.target cls_output batch.class_target
    match seg_output, cls_output with
    | .seg t, none =>
      .ok ({ loss := lget loss_dict "total_loss"
             seg_loss := lget loss_dict "seg_loss"
             cls_loss := lget loss_dict "cls_loss"
             tp_hard := segTpHard t batch.target
             fp_hard := segFpHard t batch.target
             fn_hard := segFnHard t batch.target
             cls := none }, [Effect.pdbSetTrace])
    | .seg t, some (.cls rows) =>
      .ok ({ loss := lget loss_dict "total_loss"
             seg_loss := lget loss_dict "seg_loss"
             cls_loss := lget loss_dict "cls_loss"
             tp_hard := segTpHard t batch.target
             fp_hard := segFpHard t batch.target
             fn_hard := segFnHard t batch.target
             cls := some (clsConfusion rows batch.class_target) }, [Effect.pdbSetTrace])
    | .seg _, some _ => .error ("TypeError: classification output shape")
    | _, _ => .error ("AttributeError: ndim on non-tensor segmentation output")

/-- Lines 114-142, `train_step`: forward pass, output split, loss mapping,
then `loss_dict['loss'].backward()` (a plain subscript: a missing `'loss'`
key raises a `KeyError`) and one optimizer update.  The returned effects
record `optimizer.zero_grad()`, the backward pass and the optimizer step. -/
def train_step (tr : VTrainer) (batch : Batch) : Except String (List (String × ℚ) × List Effect) :=
  match splitNetworkOutput (tr.network batch.data) with
  | .error e => .error e
  | .ok (seg_output, cls_output) =>
    let loss_dict := tr.lossFn seg_output batch.target cls_output batch.class_target
    match loss_dict.find? fun e => e.1 == "loss" with
    | none => .error ("KeyError: loss")
    | some _ => .ok (loss_dict, [Effect.zeroGrad, Effect.backward, Effect.optimizerStep])

/-- The per-key stacks produced by collating the per-step classification
metrics. -/
structure ClsStack where
  tpS : List (List ℕ)
  fpS : List (List ℕ)
  fnS : List (List ℕ)
  tnS : List (List ℕ)
  correctS : List ℕ
  totalS : List ℕ
deriving DecidableEq

/-- The collated validation outputs: one stacked array per key of the first
step's result mapping. -/
structure Collated where
  loss : List ℚ
  seg_loss : List ℚ
  cls_loss : List ℚ
  tpH : List (List ℕ)
  fpH : List (List ℕ)
  fnH : List (List ℕ)
  cls : Option ClsStack
deriving DecidableEq

/-- Extraction of the classification blocks of every step, `none` when some
step lacks one. -/
def clsOf? : List StepResult → Option (List ClsCounts)
  | [] => some []
  | s :: t =>
    match s.cls, clsOf? t with
    | some c, some cs => some (c :: cs)
    | _, _ => none

/-- Modelled from the spec: `collate_outputs` (imported from
`nnunetv2.utilities.collate_outputs`, whose source is not part of this
snapshot) stacks each key of the first step's result mapping across all
steps.  An empty output list fails at the first subscript; a later step
missing a key of the first step raises; arrays that do not stack
rectangularly make `np.vstack` raise; keys absent from the first step are
silently dropped. -/
def collate_outputs (steps : List StepResult) : Except String Collated :=
  match steps with
  | [] => .error ("IndexError: empty validation outputs")
  | s0 :: _ =>
    if rect (steps.map (·.tp_hard)) && rect (steps.map (·.fp_hard))
        && rect (steps.map (·.fn_hard)) then
      match s0.cls with
      | none =>
        .ok { loss := steps.map (·.loss), seg_loss := steps.map (·.seg_loss)
              cls_loss := steps.map (·.cls_loss)
              tpH := steps.map (·.tp_hard), fpH := steps.map (·.fp_hard)
              fnH := steps.map (·.fn_hard), cls := none }
      | some _ =>
        match clsOf? steps with
        | none => .error ("KeyError: cls_tp")
        | some cs =>
          if rect (cs.map (·.cls_tp)) && rect (cs.map (·.cls_fp))
              && rect (cs.map (·.cls_fn)) && rect (cs.map (·.cls_tn)) then
            .ok { loss := steps.map (·.loss), seg_loss := steps.map (·.seg_loss)
                  cls_loss := steps.map (·.cls_loss)
                  tpH := steps.map (·.tp_hard), fpH := steps.map (·.fp_hard)
                  fnH := steps.map (·.fn_hard)
                  cls := some { tpS := cs.map (·.cls_tp), fpS := cs.map (·.cls_fp)
                                fnS := cs.map (·.cls_fn), tnS := cs.map (·.cls_tn)
                                correctS := cs.map (·.cls_correct)
                                totalS := cs.map (·.cls_total) } }
          else .error ("ValueError: vstack")
    else .error ("ValueError: vstack")

/-- The classification summary computed at epoch end (lines 372-380). -/
structure ClsSummary where
  cls_accuracy : ℚ
  cls_precision_per_class : List ℚ
  cls_recall_per_class : List ℚ
  cls_f1_per_class : List ℚ
  cls_macro_precision : RQ
  cls_macro_recall : RQ
  cls_macro_f1 : RQ
deriving DecidableEq

/-- The epoch summary returned by `on_validation_epoch_end` (lines 422-429). -/
structure EpochSummary where
  mean_fg_dice : RQ
  dice_per_class : List RQ
  total_loss : RQ
  seg_loss : RQ
  cls_loss : RQ
  clsSummary : Option ClsSummary
deriving DecidableEq

/-- The classification count aggregates after summing over steps (and, under
DDP, over workers); the locally summed `cls_tn` is never used afterwards. -/
structure ClsAgg where
  tpA : List ℕ
  fpA : List ℕ
  fnA : List ℕ
  correctA : ℕ
  totalA : ℕ
deriving DecidableEq

/-- Line 321, `[2 * i / (2 * i + j + k) for i, j, k in zip(tp, fp, fn)]` in
numpy float arithmetic: the counts are nonnegative, so a zero denominator
forces a zero numerator and the quotient is the NaN of `0.0 / 0.0`. -/
def dicePerClass (tp fp fn : List ℕ) : List RQ :=
  (tp.zip (fp.zip fn)).map fun x =>
    if 2 * x.1 + x.2.1 + x.2.2 = 0 then none
    else some (((2 * x.1 : ℕ) : ℚ) / ((2 * x.1 + x.2.1 + x.2.2 : ℕ) : ℚ))

/-- Value of `np.divide(a, b, out=np.zeros_like(a), where=(b != 0))`. -/
def npDivWhere (a b : ℚ) : ℚ := if b = 0 then 0 else a / b

/-- Lines 358-370: accuracy, per-class precision / recall / F1, and their
macro (nanmean) averages from the aggregated counts. -/
def clsMetricsOf (g : ClsAgg) : ClsSummary :=
  let precV := List.zipWith (fun (t f : ℕ) => npDivWhere (t : ℚ) ((t + f : ℕ) : ℚ)) g.tpA g.fpA
  let recV := List.zipWith (fun (t f : ℕ) => npDivWhere (t : ℚ) ((t + f : ℕ) : ℚ)) g.tpA g.fnA
  let f1V := List.zipWith (fun p r => npDivWhere (2 * p * r) (p + r)) precV recV
  { cls_accuracy := if 0 < g.totalA then (g.correctA : ℚ) / (g.totalA : ℚ) else 0
    cls_precision_per_class := precV
    cls_recall_per_class := recV
    cls_f1_per_class := f1V
    cls_macro_precision := npNanMean (precV.map some)
    cls_macro_recall := npNanMean (recV.map some)
    cls_macro_f1 := npNanMean (f1V.map some) }

/-- Shared tail of both epoch-end branches (lines 320-429): Dice per class,
mean foreground Dice, the loss means, and the classification summary. -/
def epochSummaryOf (tp fp fn : List ℕ) (tl sl cl : RQ) (g : Option ClsAgg) : EpochSummary :=
  let dice := dicePerClass tp fp fn
  { mean_fg_dice := npNanMean dice
    dice_per_class := dice
    total_loss := tl
    seg_loss := sl
    cls_loss := cl
    clsSummary := g.map clsMetricsOf }

/-- The guard of line 326: `'cls_tp' in outputs_collated and
outputs_collated['cls_tp'].size > 0`; the size of the stacked array is the
total number of its entries. -/
def hasClsFlag (c : Collated) : Bool :=
  match c.cls with
  | some cs => decide (0 < (cs.tpS.map (·.length)).sum)
  | none => false

/-- Lines 271-429, the non-distributed branch (`is_ddp` false): collate the
step results, sum each count stack over the step axis, take the plain means
of the loss arrays and build the epoch summary.  The effect list records the
`pdb.set_trace()` breakpoint of lines 278-279.  Logging and console printing
are delegated to collaborators and not modelled. -/
def on_validation_epoch_end (val_outputs : List StepResult) : Except String (EpochSummary × List Effect) :=
  match collate_outputs val_outputs with
  | .error e => .error e
  | .ok col =>
    let g : Option ClsAgg :=
      match col.cls with
      | some cs =>
        if hasClsFlag col then
          some { tpA := sumCols cs.tpS, fpA := sumCols cs.fpS, fnA := sumCols cs.fnS
                 correctA := cs.correctS.sum, totalA := cs.totalS.sum }
        else none
      | none => none
    .ok (epochSummaryOf (sumCols col.tpH) (sumCols col.fpH) (sumCols col.fnH)
          (npMean col.loss) (npMean col.seg_loss) (npMean col.cls_loss) g,
         [Effect.pdbSetTrace])

/-- The ordered `dist.all_gather_object` calls one worker issues in the DDP
branch: lines 287-314 always, then lines 336-356 exactly when its local
classification guard holds.  The locally summed `cls_tn` is never gathered. -/
def workerGatherCalls (hasCls : Bool) : List GatherTag :=
  [GatherTag.tpTag, GatherTag.fpTag, GatherTag.fnTag,
   GatherTag.lossTag, GatherTag.segLossTag, GatherTag.clsLossTag] ++
  (if hasCls then
    [GatherTag.clsTpTag, GatherTag.clsFpTag, GatherTag.clsFnTag,
     GatherTag.clsCorrectTag, GatherTag.clsTotalTag]
   else [])

/-- Collation on every worker, failing when any worker's collation fails. -/
def collateAll : List (List StepResult) → Except String (List Collated)
  | [] => .ok []
  | w :: ws =>
    match collate_outputs w, collateAll ws with
    | .ok c, .ok cs => .ok (c :: cs)
    | .error e, _ => .error e
    | .ok _, .error e => .error e

/-- The classification stack of a collated worker, defaulting to empty
stacks (only read under the guard that makes it present). -/
def clsStackOf (c : Collated) : ClsStack :=
  c.cls.getD { tpS := [], fpS := [], fnS := [], tnS := [], correctS := [], totalS := [] }

/-- Lines 271-429, the distributed branch (`is_ddp` true): every worker
collates its own step results and sums them locally, then the workers
all-gather each aggregate.  Gathered count vectors are stacked and summed
over the worker axis; the gathered per-step loss arrays (each of shape
`(n_i, 1)`) are stacked and averaged over all their entries; the gathered
`cls_correct` / `cls_total` scalars are summed.  `dist.all_gather_object` is
a synchronous collective, so a worker set disagreeing on the classification
guard issues mismatched collectives and stalls forever — the stall is
modelled as an error, as is a `np.vstack` width mismatch between workers. -/
def on_validation_epoch_end_ddp (workers : List (List StepResult)) : Except String (EpochSummary × List Effect) :=
  match collateAll workers with
  | .error e => .error e
  | .ok [] => .error ("world_size is zero")
  | .ok (c0 :: crest) =>
    let cols := c0 :: crest
    if crest.all (fun c => hasClsFlag c == hasClsFlag c0) then
      if rect (cols.map fun c => sumCols c.tpH) && rect (cols.map fun c => sumCols c.fpH)
          && rect (cols.map fun c => sumCols c.fnH)
          && (!hasClsFlag c0 || (rect (cols.map fun c => sumCols (clsStackOf c).tpS)
              && rect (cols.map fun c => sumCols (clsStackOf c).fpS)
              && rect (cols.map fun c => sumCols (clsStackOf c).fnS))) then
        let g : Option ClsAgg :=
          if hasClsFlag c0 then
            some { tpA := sumCols (cols.map fun c => sumCols (clsStackOf c).tpS)
                   fpA := sumCols (cols.map fun c => sumCols (clsStackOf c).fpS)
                   fnA := sumCols (cols.map fun c => sumCols (clsStackOf c).fnS)
                   correctA := (cols.map fun c => (clsStackOf c).correctS.sum).sum
                   totalA := (cols.map fun c => (clsStackOf c).totalS.sum).sum }
          else none
        .ok (epochSummaryOf
              (sumCols (cols.map fun c => sumCols c.tpH))
              (sumCols (cols.map fun c => sumCols c.fpH))
              (sumCols (cols.map fun c => sumCols c.fnH))
              (npMean (cols.map (·.loss)).flatten)
              (npMean (cols.map (·.seg_loss)).flatten)
              (npMean (cols.map (·.cls_loss)).flatten) g,
             Effect.pdbSetTrace :: (workerGatherCalls (hasClsFlag c0)).map Effect.allGather)
      else .error ("ValueError: vstack")
    else .error ("collective mismatch: workers disagree on classification reduction")

/-- The scheduling-relevant state of the trainer: the configured maximum
classification weight `self.cls_weight` (0.5 after `__init__`), the current
epoch index, and the loss functor's mutable `cls_weight` field. -/
structure MTTrainerSched where
  cls_weight : ℚ
  current_epoch : ℕ
  loss_cls_weight : ℚ
deriving DecidableEq

/-- Lines 432-443, `on_train_epoch_start`: the classification loss weight is
set to `self.cls_weight * min(self.current_epoch / 100.0, 1.0)`.  The
`hasattr(self, 'current_epoch')` guard always holds (the base trainer defines
the attribute), and the base-class hook does not touch loss weights. -/
def on_train_epoch_start (s : MTTrainerSched) : MTTrainerSched :=
  { s with loss_cls_weight := s.cls_weight * min ((s.current_epoch : ℚ) / 100) 1 }

/-- Modelled from the spec: the base trainer's epoch loop (not part of this
snapshot) invokes `on_train_epoch_start` before any training step of the
epoch runs; each step reads the loss functor's classification weight and no
step mutates it (spec section 5).  This lists the weight seen by each of the
epoch's training steps. -/
def epochStepWeights (s : MTTrainerSched) (numSteps : ℕ) : List ℚ :=
  List.replicate numSteps (on_train_epoch_start s).loss_cls_weight

/-- Concrete validation step result (with a classification block) used by the
closed instances below. -/
def stA : StepResult :=
  { loss := 1, seg_loss := 2, cls_loss := 3, tp_hard := [1, 2], fp_hard := [0, 1]
    fn_hard := [1, 0]
    cls := some { cls_tp := [1, 0], cls_fp := [0, 1], cls_fn := [1, 0], cls_tn := [0, 1]
                  cls_correct := 1, cls_total := 2 } }

/-- Second concrete validation step result with a classification block. -/
def stB : StepResult :=
  { loss := 3, seg_loss := 4, cls_loss := 5, tp_hard := [2, 0], fp_hard := [1, 1]
    fn_hard := [0, 0]
    cls := some { cls_tp := [0, 1], cls_fp := [1, 0], cls_fn := [0, 1], cls_tn := [1, 0]
                  cls_correct := 1, cls_total := 2 } }

/-- Concrete validation step result without a classification block. -/
def stN : StepResult :=
  { loss := 1, seg_loss := 1, cls_loss := 0, tp_hard := [5, 0], fp_hard := [1, 0]
    fn_hard := [1, 0], cls := none }

/-- Concrete trainer whose network returns the two-field record (one sample,
two channels, two pixels of segmentation logits; three class logits). -/
def trC : VTrainer :=
  { network := fun _ => PyVal.dict
      [("segmentation", PyVal.seg [[[1, 0], [0, 2]]]), ("classification", PyVal.cls [[1, 2, 0]])]
    lossFn := fun _ _ _ _ => [("total_loss", 7), ("seg_loss", 5), ("cls_loss", 2), ("loss", 7)] }

/-- Concrete batch with one sample and two pixels. -/
def bC : Batch := { data := [[[0]]], target := [[1, 1]], class_target := [1] }

/-- Concrete trainer whose network returns a two-entry dict with keys other
than segmentation / classification. -/
def trBad : VTrainer :=
  { network := fun _ => PyVal.dict [("a", PyVal.seg [[[1]]]), ("b", PyVal.seg [[[1]]])]
    lossFn := fun _ _ _ _ => [("loss", 1)] }

/-- Concrete trainer whose network returns a two-entry dict carrying the
segmentation key but not the classification key. -/
def trBad2 : VTrainer :=
  { network := fun _ => PyVal.dict [("segmentation", PyVal.seg [[[1]]]), ("b", PyVal.seg [[[1]]])]
    lossFn := fun _ _ _ _ => [("loss", 1)] }

/-- Check that every step's segmentation count arrays have length `c`. -/
def segUniformB (c : ℕ) (w : List StepResult) : Bool :=
  w.all fun s => s.tp_hard.length == c && s.fp_hard.length == c && s.fn_hard.length == c

/-- Check that no step carries classification metrics. -/
def clsNoneB (w : List StepResult) : Bool := w.all fun s => s.cls.isNone

/-- Check that a classification block's count arrays all have length `K`. -/
def clsLenOkB (K : ℕ) (cc : ClsCounts) : Bool :=
  cc.cls_tp.length == K && cc.cls_fp.length == K && cc.cls_fn.length == K && cc.cls_tn.length == K

/-- Check that every step carries classification metrics of width `K`. -/
def clsUniformB (K : ℕ) (w : List StepResult) : Bool :=
  w.all fun s =>
    match s.cls with
    | some cc => clsLenOkB K cc
    | none => false

/-- The collated value of a run whose steps carry no classification block. -/
def colNone (w : List StepResult) : Collated :=
  { loss := w.map (·.loss), seg_loss := w.map (·.seg_loss), cls_loss := w.map (·.cls_loss)
    tpH := w.map (·.tp_hard), fpH := w.map (·.fp_hard), fnH := w.map (·.fn_hard), cls := none }

/-- The stacked classification metrics of a list of per-step blocks. -/
def stackOf (cs : List ClsCounts) : ClsStack :=
  { tpS := cs.map (·.cls_tp), fpS := cs.map (·.cls_fp), fnS := cs.map (·.cls_fn)
    tnS := cs.map (·.cls_tn), correctS := cs.map (·.cls_correct), totalS := cs.map (·.cls_total) }

/-- The collated value of a run whose steps all carry classification blocks. -/
def colSome (w : List StepResult) : Collated :=
  { loss := w.map (·.loss), seg_loss := w.map (·.seg_loss), cls_loss := w.map (·.cls_loss)
    tpH := w.map (·.tp_hard), fpH := w.map (·.fp_hard), fnH := w.map (·.fn_hard)
    cls := some (stackOf (w.filterMap (·.cls))) }

section Lemmas

lemma vadd_assoc : ∀ (a b c : List ℕ), vadd (vadd a b) c = vadd a (vadd b c) := by
  intro a
  induction a with
  | nil => intro b c; rfl
  | cons x a ih =>
    intro b c
    cases b with
    | nil => rfl
    | cons y b =>
      cases c with
      | nil => rfl
      | cons z c => simp [vadd, List.zipWith, Nat.add_assoc, ih b c, vadd] at ih ⊢; exact ih b c

lemma vadd_replicate_zero : ∀ (a : List ℕ) (c : ℕ), a.length = c → vadd a (List.replicate c 0) = a := by
  intro a
  induction a with
  | nil => intro c _; simp [vadd]
  | cons x a ih =>
    intro c hc
    cases c with
    | zero => simp at hc
    | succ c =>
      have h : a.length = c := by simpa using hc
      have := ih c h
      simp only [List.replicate_succ, vadd, List.zipWith] at this ⊢
      simp [this]

lemma replicate_zero_vadd : ∀ (a : List ℕ) (c : ℕ), a.length = c → vadd (List.replicate c 0) a = a := by
  intro a
  induction a with
  | nil => intro c _; simp [vadd]
  | cons x a ih =>
    intro c hc
    cases c with
    | zero => simp at hc
    | succ c =>
      have h : a.length = c := by simpa using hc
      have := ih c h
      simp only [List.replicate_succ, vadd, List.zipWith] at this ⊢
      simp [this]

lemma sumColsW_nil (c : ℕ) : sumColsW c [] = List.replicate c 0 := rfl

lemma sumColsW_cons (c : ℕ) (r : List ℕ) (rs : List (List ℕ)) :
    sumColsW c (r :: rs) = vadd r (sumColsW c rs) := rfl

lemma sumColsW_length (c : ℕ) : ∀ (rows : List (List ℕ)), (∀ r ∈ rows, r.length = c) →
    (sumColsW c rows).length = c := by
  intro rows
  induction rows with
  | nil => intro _; simp [sumColsW]
  | cons r rs ih =>
    intro h
    have hr : r.length = c := h r (by simp)
    have hs : (sumColsW c rs).length = c := ih fun x hx => h x (by simp [hx])
    simp [sumColsW_cons, vadd, hr, hs]

lemma foldr_vadd_eq (c : ℕ) : ∀ (rows : List (List ℕ)) (y : List ℕ), y.length = c →
    rows.foldr vadd y = vadd (sumColsW c rows) y := by
  intro rows
  induction rows with
  | nil => intro y hy; simp [sumColsW_nil, replicate_zero_vadd y c hy]
  | cons r rs ih =>
    intro y hy
    simp only [List.foldr_cons, ih y hy, sumColsW_cons, vadd_assoc]

lemma sumColsW_append (c : ℕ) (A B : List (List ℕ)) (hB : ∀ r ∈ B, r.length = c) :
    sumColsW c (A ++ B) = vadd (sumColsW c A) (sumColsW c B) := by
  unfold sumColsW
  rw [List.foldr_append]
  exact foldr_vadd_eq c A (B.foldr vadd (List.replicate c 0)) (sumColsW_length c B hB)

lemma sumCols_singleton (x : List ℕ) : sumCols [x] = x := by
  simp [sumCols, vWidth, sumColsW_cons, sumColsW_nil]
  exact vadd_replicate_zero x x.length rfl

lemma sumCols_eq_sumColsW (c : ℕ) (r : List ℕ) (rs : List (List ℕ)) (hr : r.length = c) :
    sumCols (r :: rs) = sumColsW c (r :: rs) := by
  simp [sumCols, vWidth, hr]

lemma sumCols_pair (c : ℕ) (x y : List ℕ) (hx : x.length = c) (hy : y.length = c) :
    sumCols [x, y] = vadd x y := by
  rw [sumCols_eq_sumColsW c x [y] hx, sumColsW_cons, sumColsW_cons, sumColsW_nil,
    vadd_replicate_zero y c hy]

lemma rect_of_all_len (c : ℕ) (rows : List (List ℕ)) (h : ∀ r ∈ rows, r.length = c) :
    rect rows = true := by
  cases rows with
  | nil => rfl
  | cons r rs =>
    simp only [rect, List.all_eq_true]
    intro x hx
    have h1 : x.length = c := h x (by simp [hx])
    have h2 : r.length = c := h r (by simp)
    simp [h1, h2]

lemma clsOf?_of_all_some : ∀ (w : List StepResult), (∀ s ∈ w, s.cls.isSome) →
    clsOf? w = some (w.filterMap (·.cls)) := by
  intro w
  induction w with
  | nil => intro _; rfl
  | cons s t ih =>
    intro h
    have hs : s.cls.isSome := h s (by simp)
    obtain ⟨cc, hcc⟩ := Option.isSome_iff_exists.mp hs
    have ht := ih fun x hx => h x (by simp [hx])
    simp [clsOf?, hcc, ht, List.filterMap_cons]

lemma segUniform_spec {c : ℕ} {w : List StepResult} (h : segUniformB c w = true) :
    ∀ s ∈ w, s.tp_hard.length = c ∧ s.fp_hard.length = c ∧ s.fn_hard.length = c := by
  intro s hs
  simp only [segUniformB, List.all_eq_true] at h
  have := h s hs
  simp only [Bool.and_eq_true, beq_iff_eq] at this
  exact ⟨this.1.1, this.1.2, this.2⟩

lemma clsUniform_spec {K : ℕ} {w : List StepResult} (h : clsUniformB K w = true) :
    ∀ s ∈ w, ∃ cc, s.cls = some cc ∧ cc.cls_tp.length = K ∧ cc.cls_fp.length = K ∧
      cc.cls_fn.length = K ∧ cc.cls_tn.length = K := by
  intro s hs
  simp only [clsUniformB, List.all_eq_true] at h
  have hsb := h s hs
  cases hcc : s.cls with
  | none => rw [hcc] at hsb; exact absurd hsb (by simp)
  | some cc =>
    rw [hcc] at hsb
    simp only [clsLenOkB, Bool.and_eq_true, beq_iff_eq] at hsb
    exact ⟨cc, rfl, hsb.1.1.1, hsb.1.1.2, hsb.1.2, hsb.2⟩

lemma collate_none_eq {c : ℕ} (w : List StepResult) (hne : w ≠ [])
    (hseg : segUniformB c w = true) (hcls : clsNoneB w = true) :
    collate_outputs w = .ok (colNone w) := by
  cases w with
  | nil => exact absurd rfl hne
  | cons s0 rest =>
    have hs := segUniform_spec hseg
    have h0 : s0.cls = none := by
      simp only [clsNoneB, List.all_eq_true] at hcls
      have := hcls s0 (by simp)
      simpa [Option.isNone_iff_eq_none] using this
    have r1 := rect_of_all_len c ((s0 :: rest).map (·.tp_hard))
      (by intro r hr; obtain ⟨s, hsw, hmap⟩ := List.mem_map.mp hr; rw [← hmap]; exact (hs s hsw).1)
    have r2 := rect_of_all_len c ((s0 :: rest).map (·.fp_hard))
      (by intro r hr; obtain ⟨s, hsw, hmap⟩ := List.mem_map.mp hr; rw [← hmap]; exact (hs s hsw).2.1)
    have r3 := rect_of_all_len c ((s0 :: rest).map (·.fn_hard))
      (by intro r hr; obtain ⟨s, hsw, hmap⟩ := List.mem_map.mp hr; rw [← hmap]; exact (hs s hsw).2.2)
    simp only [List.map_cons] at r1 r2 r3
    simp [collate_outputs, r1, r2, r3, h0, colNone]

lemma collate_some_eq {c K : ℕ} (w : List StepResult) (hne : w ≠ [])
    (hseg : segUniformB c w = true) (hcls : clsUniformB K w = true) :
    collate_outputs w = .ok (colSome w) := by
  cases w with
  | nil => exact absurd rfl hne
  | cons s0 rest =>
    have hs := segUniform_spec hseg
    have hc := clsUniform_spec hcls
    obtain ⟨cc0, hcc0, _⟩ := hc s0 (by simp)
    have hall : ∀ s ∈ s0 :: rest, s.cls.isSome := by
      intro s hsw; obtain ⟨cc, hcc, _⟩ := hc s hsw; simp [hcc]
    have hclsOf := clsOf?_of_all_some (s0 :: rest) hall
    have r1 := rect_of_all_len c ((s0 :: rest).map (·.tp_hard))
      (by intro r hr; obtain ⟨s, hsw, hmap⟩ := List.mem_map.mp hr; rw [← hmap]; exact (hs s hsw).1)
    have r2 := rect_of_all_len c ((s0 :: rest).map (·.fp_hard))
      (by intro r hr; obtain ⟨s, hsw, hmap⟩ := List.mem_map.mp hr; rw [← hmap]; exact (hs s hsw).2.1)
    have r3 := rect_of_all_len c ((s0 :: rest).map (·.fn_hard))
      (by intro r hr; obtain ⟨s, hsw, hmap⟩ := List.mem_map.mp hr; rw [← hmap]; exact (hs s hsw).2.2)
    have hmem : ∀ x ∈ (s0 :: rest).filterMap (·.cls), x.cls_tp.length = K ∧
        x.cls_fp.length = K ∧ x.cls_fn.length = K ∧ x.cls_tn.length = K := by
      intro x hx
      obtain ⟨s, hsw, hsx⟩ := List.mem_filterMap.mp hx
      obtain ⟨cc, hcc, h1, h2, h3, h4⟩ := hc s hsw
      rw [hcc] at hsx
      cases hsx
      exact ⟨h1, h2, h3, h4⟩
    have q1 := rect_of_all_len K (((s0 :: rest).filterMap (·.cls)).map (·.cls_tp))
      (by intro r hr; obtain ⟨x, hxw, hmap⟩ := List.mem_map.mp hr; rw [← hmap]; exact (hmem x hxw).1)
    have q2 := rect_of_all_len K (((s0 :: rest).filterMap (·.cls)).map (·.cls_fp))
      (by intro r hr; obtain ⟨x, hxw, hmap⟩ := List.mem_map.mp hr; rw [← hmap]; exact (hmem x hxw).2.1)
    have q3 := rect_of_all_len K (((s0 :: rest).filterMap (·.cls)).map (·.cls_fn))
      (by intro r hr; obtain ⟨x, hxw, hmap⟩ := List.mem_map.mp hr; rw [← hmap]; exact (hmem x hxw).2.2.1)
    have q4 := rect_of_all_len K (((s0 :: rest).filterMap (·.cls)).map (·.cls_tn))
      (by intro r hr; obtain ⟨x, hxw, hmap⟩ := List.mem_map.mp hr; rw [← hmap]; exact (hmem x hxw).2.2.2)
    simp only [List.map_cons] at r1 r2 r3
    simp only [List.filterMap_cons, hcc0, List.map_cons] at q1 q2 q3 q4
    simp [collate_outputs, r1, r2, r3, hcc0, hclsOf, q1, q2, q3, q4, colSome, stackOf,
      List.filterMap_cons]

lemma hasClsFlag_colNone (w : List StepResult) : hasClsFlag (colNone w) = false := rfl

lemma hasClsFlag_colSome {K : ℕ} (w : List StepResult) (hne : w ≠ [])
    (hcls : clsUniformB K w = true) (hK : 0 < K) : hasClsFlag (colSome w) = true := by
  cases w with
  | nil => exact absurd rfl hne
  | cons s0 rest =>
    obtain ⟨cc0, hcc0, h1, _⟩ := clsUniform_spec hcls s0 (by simp)
    simp only [hasClsFlag, colSome, stackOf, List.map_map, decide_eq_true_eq]
    have hmem : cc0 ∈ (s0 :: rest).filterMap (·.cls) :=
      List.mem_filterMap.mpr ⟨s0, by simp, hcc0⟩
    have hmem2 : K ∈ ((s0 :: rest).filterMap (·.cls)).map fun x => x.cls_tp.length := by
      refine List.mem_map.mpr ⟨cc0, hmem, ?_⟩
      simp [h1]
    have hle : K ≤ (((s0 :: rest).filterMap (·.cls)).map fun x => x.cls_tp.length).sum :=
      List.single_le_sum (fun _ _ => Nat.zero_le _) _ hmem2
    have : ((fun x => x.length) ∘ fun x => x.cls_tp) = fun (x : ClsCounts) => x.cls_tp.length := rfl
    rw [this]
    omega

lemma epoch_end_none_eq {c : ℕ} (w : List StepResult) (hne : w ≠ [])
    (hseg : segUniformB c w = true) (hcls : clsNoneB w = true) :
    on_validation_epoch_end w =
      .ok (epochSummaryOf (sumColsW c (w.map (·.tp_hard))) (sumColsW c (w.map (·.fp_hard)))
        (sumColsW c (w.map (·.fn_hard))) (npMean (w.map (·.loss))) (npMean (w.map (·.seg_loss)))
        (npMean (w.map (·.cls_loss))) none, [Effect.pdbSetTrace]) := by
  cases w with
  | nil => exact absurd rfl hne
  | cons s0 rest =>
    have hlen := segUniform_spec hseg
    have h1 : s0.tp_hard.length = c := (hlen s0 (by simp)).1
    have h2 : s0.fp_hard.length = c := (hlen s0 (by simp)).2.1
    have h3 : s0.fn_hard.length = c := (hlen s0 (by simp)).2.2
    rw [on_validation_epoch_end, collate_none_eq (s0 :: rest) hne hseg hcls]
    simp only [colNone, List.map_cons, sumCols_eq_sumColsW c _ _ h1,
      sumCols_eq_sumColsW c _ _ h2, sumCols_eq_sumColsW c _ _ h3]

lemma epoch_end_some_eq {c K : ℕ} (w : List StepResult) (hne : w ≠ [])
    (hseg : segUniformB c w = true) (hcls : clsUniformB K w = true) (hK : 0 < K) :
    on_validation_epoch_end w =
      .ok (epochSummaryOf (sumColsW c (w.map (·.tp_hard))) (sumColsW c (w.map (·.fp_hard)))
        (sumColsW c (w.map (·.fn_hard))) (npMean (w.map (·.loss))) (npMean (w.map (·.seg_loss)))
        (npMean (w.map (·.cls_loss)))
        (some { tpA := sumColsW K ((w.filterMap (·.cls)).map (·.cls_tp))
                fpA := sumColsW K ((w.filterMap (·.cls)).map (·.cls_fp))
                fnA := sumColsW K ((w.filterMap (·.cls)).map (·.cls_fn))
                correctA := ((w.filterMap (·.cls)).map (·.cls_correct)).sum
                totalA := ((w.filterMap (·.cls)).map (·.cls_total)).sum }),
        [Effect.pdbSetTrace]) := by
  cases w with
  | nil => exact absurd rfl hne
  | cons s0 rest =>
    have hlen := segUniform_spec hseg
    have h1 : s0.tp_hard.length = c := (hlen s0 (by simp)).1
    have h2 : s0.fp_hard.length = c := (hlen s0 (by simp)).2.1
    have h3 : s0.fn_hard.length = c := (hlen s0 (by simp)).2.2
    obtain ⟨cc0, hcc0, k1, k2, k3, k4⟩ := clsUniform_spec hcls s0 (by simp)
    have hflag := hasClsFlag_colSome (s0 :: rest) hne hcls hK
    rw [on_validation_epoch_end, collate_some_eq (s0 :: rest) hne hseg hcls]
    simp only [colSome, stackOf] at hflag ⊢
    rw [hflag]
    simp only [List.map_cons, List.filterMap_cons, hcc0]
    simp only [sumCols_eq_sumColsW c _ _ h1, sumCols_eq_sumColsW c _ _ h2,
      sumCols_eq_sumColsW c _ _ h3, List.map_cons,
      sumCols_eq_sumColsW K _ _ k1, sumCols_eq_sumColsW K _ _ k2, sumCols_eq_sumColsW K _ _ k3]
    simp

lemma map_tp_len {c : ℕ} {w : List StepResult} (hseg : segUniformB c w = true) :
    ∀ r ∈ w.map (·.tp_hard), r.length = c := by
  intro r hr
  obtain ⟨s, hsw, hmap⟩ := List.mem_map.mp hr
  rw [← hmap]; exact (segUniform_spec hseg s hsw).1

lemma map_fp_len {c : ℕ} {w : List StepResult} (hseg : segUniformB c w = true) :
    ∀ r ∈ w.map (·.fp_hard), r.length = c := by
  intro r hr
  obtain ⟨s, hsw, hmap⟩ := List.mem_map.mp hr
  rw [← hmap]; exact (segUniform_spec hseg s hsw).2.1

lemma map_fn_len {c : ℕ} {w : List StepResult} (hseg : segUniformB c w = true) :
    ∀ r ∈ w.map (·.fn_hard), r.length = c := by
  intro r hr
  obtain ⟨s, hsw, hmap⟩ := List.mem_map.mp hr
  rw [← hmap]; exact (segUniform_spec hseg s hsw).2.2

lemma fm_cls_mem {K : ℕ} {w : List StepResult} (hcls : clsUniformB K w = true) :
    ∀ x ∈ w.filterMap (·.cls), x.cls_tp.length = K ∧ x.cls_fp.length = K ∧
      x.cls_fn.length = K ∧ x.cls_tn.length = K := by
  intro x hx
  obtain ⟨s, hsw, hsx⟩ := List.mem_filterMap.mp hx
  obtain ⟨cc, hcc, h1, h2, h3, h4⟩ := clsUniform_spec hcls s hsw
  rw [hcc] at hsx
  cases hsx
  exact ⟨h1, h2, h3, h4⟩

lemma fm_cls_tp_len {K : ℕ} {w : List StepResult} (hcls : clsUniformB K w = true) :
    ∀ r ∈ (w.filterMap (·.cls)).map (·.cls_tp), r.length = K := by
  intro r hr
  obtain ⟨x, hxw, hmap⟩ := List.mem_map.mp hr
  rw [← hmap]; exact (fm_cls_mem hcls x hxw).1

lemma fm_cls_fp_len {K : ℕ} {w : List StepResult} (hcls : clsUniformB K w = true) :
    ∀ r ∈ (w.filterMap (·.cls)).map (·.cls_fp), r.length = K := by
  intro r hr
  obtain ⟨x, hxw, hmap⟩ := List.mem_map.mp hr
  rw [← hmap]; exact (fm_cls_mem hcls x hxw).2.1

lemma fm_cls_fn_len {K : ℕ} {w : List StepResult} (hcls : clsUniformB K w = true) :
    ∀ r ∈ (w.filterMap (·.cls)).map (·.cls_fn), r.length = K := by
  intro r hr
  obtain ⟨x, hxw, hmap⟩ := List.mem_map.mp hr
  rw [← hmap]; exact (fm_cls_mem hcls x hxw).2.2.1

lemma colNone_tpH (w : List StepResult) : (colNone w).tpH = w.map (·.tp_hard) := rfl
lemma colNone_fpH (w : List StepResult) : (colNone w).fpH = w.map (·.fp_hard) := rfl
lemma colNone_fnH (w : List StepResult) : (colNone w).fnH = w.map (·.fn_hard) := rfl
lemma colNone_loss (w : List StepResult) : (colNone w).loss = w.map (·.loss) := rfl
lemma colNone_seg_loss (w : List StepResult) : (colNone w).seg_loss = w.map (·.seg_loss) := rfl
lemma colNone_cls_loss (w : List StepResult) : (colNone w).cls_loss = w.map (·.cls_loss) := rfl
lemma colSome_tpH (w : List StepResult) : (colSome w).tpH = w.map (·.tp_hard) := rfl
lemma colSome_fpH (w : List StepResult) : (colSome w).fpH = w.map (·.fp_hard) := rfl
lemma colSome_fnH (w : List StepResult) : (colSome w).fnH = w.map (·.fn_hard) := rfl
lemma colSome_loss (w : List StepResult) : (colSome w).loss = w.map (·.loss) := rfl
lemma colSome_seg_loss (w : List StepResult) : (colSome w).seg_loss = w.map (·.seg_loss) := rfl
lemma colSome_cls_loss (w : List StepResult) : (colSome w).cls_loss = w.map (·.cls_loss) := rfl

lemma clsStackOf_colSome (w : List StepResult) :
    clsStackOf (colSome w) = stackOf (w.filterMap (·.cls)) := rfl

lemma stackOf_tpS (cs : List ClsCounts) : (stackOf cs).tpS = cs.map (·.cls_tp) := rfl
lemma stackOf_fpS (cs : List ClsCounts) : (stackOf cs).fpS = cs.map (·.cls_fp) := rfl
lemma stackOf_fnS (cs : List ClsCounts) : (stackOf cs).fnS = cs.map (·.cls_fn) := rfl
lemma stackOf_correctS (cs : List ClsCounts) : (stackOf cs).correctS = cs.map (·.cls_correct) := rfl
lemma stackOf_totalS (cs : List ClsCounts) : (stackOf cs).totalS = cs.map (·.cls_total) := rfl

lemma ddp_two_none_eq {c : ℕ} (w1 w2 : List StepResult) (h1 : w1 ≠ []) (h2 : w2 ≠ [])
    (hseg1 : segUniformB c w1 = true) (hseg2 : segUniformB c w2 = true)
    (hcls1 : clsNoneB w1 = true) (hcls2 : clsNoneB w2 = true) :
    on_validation_epoch_end_ddp [w1, w2] =
      .ok (epochSummaryOf
        (vadd (sumColsW c (w1.map (·.tp_hard))) (sumColsW c (w2.map (·.tp_hard))))
        (vadd (sumColsW c (w1.map (·.fp_hard))) (sumColsW c (w2.map (·.fp_hard))))
        (vadd (sumColsW c (w1.map (·.fn_hard))) (sumColsW c (w2.map (·.fn_hard))))
        (npMean (w1.map (·.loss) ++ w2.map (·.loss)))
        (npMean (w1.map (·.seg_loss) ++ w2.map (·.seg_loss)))
        (npMean (w1.map (·.cls_loss) ++ w2.map (·.cls_loss))) none,
        Effect.pdbSetTrace :: (workerGatherCalls false).map Effect.allGather) := by
  have e1 := collate_none_eq (c := c) w1 h1 hseg1 hcls1
  have e2 := collate_none_eq (c := c) w2 h2 hseg2 hcls2
  have hAll : collateAll [w1, w2] = .ok [colNone w1, colNone w2] := by
    simp [collateAll, e1, e2]
  have l1 : (sumColsW c (w1.map (·.tp_hard))).length = c := sumColsW_length c _ (map_tp_len hseg1)
  have l2 : (sumColsW c (w2.map (·.tp_hard))).length = c := sumColsW_length c _ (map_tp_len hseg2)
  have l3 : (sumColsW c (w1.map (·.fp_hard))).length = c := sumColsW_length c _ (map_fp_len hseg1)
  have l4 : (sumColsW c (w2.map (·.fp_hard))).length = c := sumColsW_length c _ (map_fp_len hseg2)
  have l5 : (sumColsW c (w1.map (·.fn_hard))).length = c := sumColsW_length c _ (map_fn_len hseg1)
  have l6 : (sumColsW c (w2.map (·.fn_hard))).length = c := sumColsW_length c _ (map_fn_len hseg2)
  have hc1 : sumCols (w1.map (·.tp_hard)) = sumColsW c (w1.map (·.tp_hard)) := by
    cases w1 with
    | nil => exact absurd rfl h1
    | cons s r => exact sumCols_eq_sumColsW c _ _ (segUniform_spec hseg1 s (by simp)).1
  have hc2 : sumCols (w2.map (·.tp_hard)) = sumColsW c (w2.map (·.tp_hard)) := by
    cases w2 with
    | nil => exact absurd rfl h2
    | cons s r => exact sumCols_eq_sumColsW c _ _ (segUniform_spec hseg2 s (by simp)).1
  have hc3 : sumCols (w1.map (·.fp_hard)) = sumColsW c (w1.map (·.fp_hard)) := by
    cases w1 with
    | nil => exact absurd rfl h1
    | cons s r => exact sumCols_eq_sumColsW c _ _ (segUniform_spec hseg1 s (by simp)).2.1
  have hc4 : sumCols (w2.map (·.fp_hard)) = sumColsW c (w2.map (·.fp_hard)) := by
    cases w2 with
    | nil => exact absurd rfl h2
    | cons s r => exact sumCols_eq_sumColsW c _ _ (segUniform_spec hseg2 s (by simp)).2.1
  have hc5 : sumCols (w1.map (·.fn_hard)) = sumColsW c (w1.map (·.fn_hard)) := by
    cases w1 with
    | nil => exact absurd rfl h1
    | cons s r => exact sumCols_eq_sumColsW c _ _ (segUniform_spec hseg1 s (by simp)).2.2
  have hc6 : sumCols (w2.map (·.fn_hard)) = sumColsW c (w2.map (·.fn_hard)) := by
    cases w2 with
    | nil => exact absurd rfl h2
    | cons s r => exact sumCols_eq_sumColsW c _ _ (segUniform_spec hseg2 s (by simp)).2.2
  have rA : rect [sumColsW c (w1.map (·.tp_hard)), sumColsW c (w2.map (·.tp_hard))] = true :=
    rect_of_all_len c _ (by intro r hr; simp at hr; rcases hr with h | h <;> subst h <;> assumption)
  have rB : rect [sumColsW c (w1.map (·.fp_hard)), sumColsW c (w2.map (·.fp_hard))] = true :=
    rect_of_all_len c _ (by intro r hr; simp at hr; rcases hr with h | h <;> subst h <;> assumption)
  have rC : rect [sumColsW c (w1.map (·.fn_hard)), sumColsW c (w2.map (·.fn_hard))] = true :=
    rect_of_all_len c _ (by intro r hr; simp at hr; rcases hr with h | h <;> subst h <;> assumption)
  simp only [on_validation_epoch_end_ddp, hAll]
  simp only [List.all_cons, List.all_nil, hasClsFlag_colNone, beq_self_eq_true, Bool.and_true,
    if_true, List.map_cons, List.map_nil, colNone_tpH, colNone_fpH, colNone_fnH, colNone_loss,
    colNone_seg_loss, colNone_cls_loss, hc1, hc2, hc3, hc4, hc5, hc6, rA, rB, rC, Bool.and_self,
    Bool.true_and, Bool.not_false, Bool.true_or]
  rw [sumCols_pair c _ _ l1 l2, sumCols_pair c _ _ l3 l4, sumCols_pair c _ _ l5 l6]
  simp [List.flatten]

set_option maxHeartbeats 2000000 in
lemma ddp_two_some_eq {c K : ℕ} (w1 w2 : List StepResult) (h1 : w1 ≠ []) (h2 : w2 ≠ [])
    (hseg1 : segUniformB c w1 = true) (hseg2 : segUniformB c w2 = true)
    (hcls1 : clsUniformB K w1 = true) (hcls2 : clsUniformB K w2 = true) (hK : 0 < K) :
    on_validation_epoch_end_ddp [w1, w2] =
      .ok (epochSummaryOf
        (vadd (sumColsW c (w1.map (·.tp_hard))) (sumColsW c (w2.map (·.tp_hard))))
        (vadd (sumColsW c (w1.map (·.fp_hard))) (sumColsW c (w2.map (·.fp_hard))))
        (vadd (sumColsW c (w1.map (·.fn_hard))) (sumColsW c (w2.map (·.fn_hard))))
        (npMean (w1.map (·.loss) ++ w2.map (·.loss)))
        (npMean (w1.map (·.seg_loss) ++ w2.map (·.seg_loss)))
        (npMean (w1.map (·.cls_loss) ++ w2.map (·.cls_loss)))
        (some { tpA := vadd (sumColsW K ((w1.filterMap (·.cls)).map (·.cls_tp)))
                  (sumColsW K ((w2.filterMap (·.cls)).map (·.cls_tp)))
                fpA := vadd (sumColsW K ((w1.filterMap (·.cls)).map (·.cls_fp)))
                  (sumColsW K ((w2.filterMap (·.cls)).map (·.cls_fp)))
                fnA := vadd (sumColsW K ((w1.filterMap (·.cls)).map (·.cls_fn)))
                  (sumColsW K ((w2.filterMap (·.cls)).map (·.cls_fn)))
                correctA := ((w1.filterMap (·.cls)).map (·.cls_correct)).sum +
                  ((w2.filterMap (·.cls)).map (·.cls_correct)).sum
                totalA := ((w1.filterMap (·.cls)).map (·.cls_total)).sum +
                  ((w2.filterMap (·.cls)).map (·.cls_total)).sum }),
        Effect.pdbSetTrace :: (workerGatherCalls true).map Effect.allGather) := by
  have e1 := collate_some_eq (c := c) (K := K) w1 h1 hseg1 hcls1
  have e2 := collate_some_eq (c := c) (K := K) w2 h2 hseg2 hcls2
  have hAll : collateAll [w1, w2] = .ok [colSome w1, colSome w2] := by
    simp [collateAll, e1, e2]
  have hf1 := hasClsFlag_colSome w1 h1 hcls1 hK
  have hf2 := hasClsFlag_colSome w2 h2 hcls2 hK
  have l1 : (sumColsW c (w1.map (·.tp_hard))).length = c := sumColsW_length c _ (map_tp_len hseg1)
  have l2 : (sumColsW c (w2.map (·.tp_hard))).length = c := sumColsW_length c _ (map_tp_len hseg2)
  have l3 : (sumColsW c (w1.map (·.fp_hard))).length = c := sumColsW_length c _ (map_fp_len hseg1)
  have l4 : (sumColsW c (w2.map (·.fp_hard))).length = c := sumColsW_length c _ (map_fp_len hseg2)
  have l5 : (sumColsW c (w1.map (·.fn_hard))).length = c := sumColsW_length c _ (map_fn_len hseg1)
  have l6 : (sumColsW c (w2.map (·.fn_hard))).length = c := sumColsW_length c _ (map_fn_len hseg2)
  have k1 : (sumColsW K ((w1.filterMap (·.cls)).map (·.cls_tp))).length = K :=
    sumColsW_length K _ (fm_cls_tp_len hcls1)
  have k2 : (sumColsW K ((w2.filterMap (·.cls)).map (·.cls_tp))).length = K :=
    sumColsW_length K _ (fm_cls_tp_len hcls2)
  have k3 : (sumColsW K ((w1.filterMap (·.cls)).map (·.cls_fp))).length = K :=
    sumColsW_length K _ (fm_cls_fp_len hcls1)
  have k4 : (sumColsW K ((w2.filterMap (·.cls)).map (·.cls_fp))).length = K :=
    sumColsW_length K _ (fm_cls_fp_len hcls2)
  have k5 : (sumColsW K ((w1.filterMap (·.cls)).map (·.cls_fn))).length = K :=
    sumColsW_length K _ (fm_cls_fn_len hcls1)
  have k6 : (sumColsW K ((w2.filterMap (·.cls)).map (·.cls_fn))).length = K :=
    sumColsW_length K _ (fm_cls_fn_len hcls2)
  have hc1 : sumCols (w1.map (·.tp_hard)) = sumColsW c (w1.map (·.tp_hard)) := by
    cases w1 with
    | nil => exact absurd rfl h1
    | cons s r => exact sumCols_eq_sumColsW c _ _ (segUniform_spec hseg1 s (by simp)).1
  have hc2 : sumCols (w2.map (·.tp_hard)) = sumColsW c (w2.map (·.tp_hard)) := by
    cases w2 with
    | nil => exact absurd rfl h2
    | cons s r => exact sumCols_eq_sumColsW c _ _ (segUniform_spec hseg2 s (by simp)).1
  have hc3 : sumCols (w1.map (·.fp_hard)) = sumColsW c (w1.map (·.fp_hard)) := by
    cases w1 with
    | nil => exact absurd rfl h1
    | cons s r => exact sumCols_eq_sumColsW c _ _ (segUniform_spec hseg1 s (by simp)).2.1
  have hc4 : sumCols (w2.map (·.fp_hard)) = sumColsW c (w2.map (·.fp_hard)) := by
    cases w2 with
    | nil => exact absurd rfl h2
    | cons s r => exact sumCols_eq_sumColsW c _ _ (segUniform_spec hseg2 s (by simp)).2.1
  have hc5 : sumCols (w1.map (·.fn_hard)) = sumColsW c (w1.map (·.fn_hard)) := by
    cases w1 with
    | nil => exact absurd rfl h1
    | cons s r => exact sumCols_eq_sumColsW c _ _ (segUniform_spec hseg1 s (by simp)).2.2
  have hc6 : sumCols (w2.map (·.fn_hard)) = sumColsW c (w2.map (·.fn_hard)) := by
    cases w2 with
    | nil => exact absurd rfl h2
    | cons s r => exact sumCols_eq_sumColsW c _ _ (segUniform_spec hseg2 s (by simp)).2.2
  have hd1 : sumCols ((w1.filterMap (·.cls)).map (·.cls_tp)) =
      sumColsW K ((w1.filterMap (·.cls)).map (·.cls_tp)) := by
    cases w1 with
    | nil => exact absurd rfl h1
    | cons s r =>
      obtain ⟨cc, hcc, hk, _⟩ := clsUniform_spec hcls1 s (by simp)
      simp only [List.filterMap_cons, hcc, List.map_cons]
      exact sumCols_eq_sumColsW K _ _ hk
  have hd2 : sumCols ((w2.filterMap (·.cls)).map (·.cls_tp)) =
      sumColsW K ((w2.filterMap (·.cls)).map (·.cls_tp)) := by
    cases w2 with
    | nil => exact absurd rfl h2
    | cons s r =>
      obtain ⟨cc, hcc, hk, _⟩ := clsUniform_spec hcls2 s (by simp)
      simp only [List.filterMap_cons, hcc, List.map_cons]
      exact sumCols_eq_sumColsW K _ _ hk
  have hd3 : sumCols ((w1.filterMap (·.cls)).map (·.cls_fp)) =
      sumColsW K ((w1.filterMap (·.cls)).map (·.cls_fp)) := by
    cases w1 with
    | nil => exact absurd rfl h1
    | cons s r =>
      obtain ⟨cc, hcc, _, hk, _⟩ := clsUniform_spec hcls1 s (by simp)
      simp only [List.filterMap_cons, hcc, List.map_cons]
      exact sumCols_eq_sumColsW K _ _ hk
  have hd4 : sumCols ((w2.filterMap (·.cls)).map (·.cls_fp)) =
      sumColsW K ((w2.filterMap (·.cls)).map (·.cls_fp)) := by
    cases w2 with
    | nil => exact absurd rfl h2
    | cons s r =>
      obtain ⟨cc, hcc, _, hk, _⟩ := clsUniform_spec hcls2 s (by simp)
      simp only [List.filterMap_cons, hcc, List.map_cons]
      exact sumCols_eq_sumColsW K _ _ hk
  have hd5 : sumCols ((w1.filterMap (·.cls)).map (·.cls_fn)) =
      sumColsW K ((w1.filterMap (·.cls)).map (·.cls_fn)) := by
    cases w1 with
    | nil => exact absurd rfl h1
    | cons s r =>
      obtain ⟨cc, hcc, _, _, hk, _⟩ := clsUniform_spec hcls1 s (by simp)
      simp only [List.filterMap_cons, hcc, List.map_cons]
      exact sumCols_eq_sumColsW K _ _ hk
  have hd6 : sumCols ((w2.filterMap (·.cls)).map (·.cls_fn)) =
      sumColsW K ((w2.filterMap (·.cls)).map (·.cls_fn)) := by
    cases w2 with
    | nil => exact absurd rfl h2
    | cons s r =>
      obtain ⟨cc, hcc, _, _, hk, _⟩ := clsUniform_spec hcls2 s (by simp)
      simp only [List.filterMap_cons, hcc, List.map_cons]
      exact sumCols_eq_sumColsW K _ _ hk
  have rA : rect [sumColsW c (w1.map (·.tp_hard)), sumColsW c (w2.map (·.tp_hard))] = true :=
    rect_of_all_len c _ (by intro r hr; simp at hr; rcases hr with h | h <;> subst h <;> assumption)
  have rB : rect [sumColsW c (w1.map (·.fp_hard)), sumColsW c (w2.map (·.fp_hard))] = true :=
    rect_of_all_len c _ (by intro r hr; simp at hr; rcases hr with h | h <;> subst h <;> assumption)
  have rC : rect [sumColsW c (w1.map (·.fn_hard)), sumColsW c (w2.map (·.fn_hard))] = true :=
    rect_of_all_len c _ (by intro r hr; simp at hr; rcases hr with h | h <;> subst h <;> assumption)
  have rD : rect [sumColsW K ((w1.filterMap (·.cls)).map (·.cls_tp)),
      sumColsW K ((w2.filterMap (·.cls)).map (·.cls_tp))] = true :=
    rect_of_all_len K _ (by intro r hr; simp at hr; rcases hr with h | h <;> subst h <;> assumption)
  have rE : rect [sumColsW K ((w1.filterMap (·.cls)).map (·.cls_fp)),
      sumColsW K ((w2.filterMap (·.cls)).map (·.cls_fp))] = true :=
    rect_of_all_len K _ (by intro r hr; simp at hr; rcases hr with h | h <;> subst h <;> assumption)
  have rF : rect [sumColsW K ((w1.filterMap (·.cls)).map (·.cls_fn)),
      sumColsW K ((w2.filterMap (·.cls)).map (·.cls_fn))] = true :=
    rect_of_all_len K _ (by intro r hr; simp at hr; rcases hr with h | h <;> subst h <;> assumption)
  simp only [on_validation_epoch_end_ddp, hAll]
  simp only [List.all_cons, List.all_nil, hf1, hf2, beq_self_eq_true, Bool.and_true, if_true,
    List.map_cons, List.map_nil, colSome_tpH, colSome_fpH, colSome_fnH, colSome_loss,
    colSome_seg_loss, colSome_cls_loss, clsStackOf_colSome, stackOf_tpS, stackOf_fpS,
    stackOf_fnS, stackOf_correctS, stackOf_totalS, hc1, hc2, hc3, hc4, hc5, hc6,
    hd1, hd2, hd3, hd4, hd5, hd6, rA, rB, rC, rD, rE, rF, Bool.and_self, Bool.true_and,
    Bool.not_true, Bool.false_or, Bool.true_or, Bool.or_self]
  rw [sumCols_pair c _ _ l1 l2, sumCols_pair c _ _ l3 l4, sumCols_pair c _ _ l5 l6,
    sumCols_pair K _ _ k1 k2, sumCols_pair K _ _ k3 k4, sumCols_pair K _ _ k5 k6]
  simp [List.flatten]

lemma segUniformB_append {c : ℕ} {w1 w2 : List StepResult}
    (h : segUniformB c (w1 ++ w2) = true) :
    segUniformB c w1 = true ∧ segUniformB c w2 = true := by
  simp only [segUniformB, List.all_append, Bool.and_eq_true] at h
  exact h

lemma clsNoneB_append {w1 w2 : List StepResult} (h : clsNoneB (w1 ++ w2) = true) :
    clsNoneB w1 = true ∧ clsNoneB w2 = true := by
  simp only [clsNoneB, List.all_append, Bool.and_eq_true] at h
  exact h

lemma clsUniformB_append {K : ℕ} {w1 w2 : List StepResult}
    (h : clsUniformB K (w1 ++ w2) = true) :
    clsUniformB K w1 = true ∧ clsUniformB K w2 = true := by
  simp only [clsUniformB, List.all_append, Bool.and_eq_true] at h
  exact h

lemma dicePerClass_getD : ∀ (tp fp fn : List ℕ) (i : ℕ), i < tp.length →
    fp.length = tp.length → fn.length = tp.length →
    (dicePerClass tp fp fn).getD i none =
      (if 2 * tp.getD i 0 + fp.getD i 0 + fn.getD i 0 = 0 then none
       else some (((2 * tp.getD i 0 : ℕ) : ℚ) /
         ((2 * tp.getD i 0 + fp.getD i 0 + fn.getD i 0 : ℕ) : ℚ))) := by
  intro tp
  induction tp with
  | nil => intro fp fn i hi _ _; simp at hi
  | cons t tp ih =>
    intro fp fn i hi hfp hfn
    cases fp with
    | nil => simp at hfp
    | cons f fp =>
      cases fn with
      | nil => simp at hfn
      | cons n fn =>
        cases i with
        | zero => simp [dicePerClass]
        | succ i =>
          have hi2 : i < tp.length := by simpa using hi
          have hfp2 : fp.length = tp.length := by simpa using hfp
          have hfn2 : fn.length = tp.length := by simpa using hfn
          simpa [dicePerClass] using ih fp fn i hi2 hfp2 hfn2

lemma dicePerClass_length (tp fp fn : List ℕ) (hfp : fp.length = tp.length)
    (hfn : fn.length = tp.length) : (dicePerClass tp fp fn).length = tp.length := by
  simp [dicePerClass, hfp, hfn]

lemma zipWith_eq_range_map {α β γ : Type} (f : α → β → γ) (dl : α) (dr : β) :
    ∀ (a : List α) (b : List β), b.length = a.length →
      List.zipWith f a b = (List.range a.length).map fun i => f (a.getD i dl) (b.getD i dr) := by
  intro a
  induction a with
  | nil => intro b hb; simp
  | cons x a ih =>
    intro b hb
    cases b with
    | nil => simp at hb
    | cons y b =>
      have hb2 : b.length = a.length := by simpa using hb
      simp only [List.zipWith_cons_cons, List.length_cons, List.range_succ_eq_map,
        List.map_cons, List.map_map, ih b hb2]
      rfl

lemma zipWith_map_same {α β γ δ : Type} (g : β → γ → δ) (pf : α → β) (rf : α → γ) :
    ∀ (l : List α), List.zipWith g (l.map pf) (l.map rf) = l.map fun x => g (pf x) (rf x) := by
  intro l
  induction l with
  | nil => rfl
  | cons x l ih => simp [ih]

lemma range_map_getD {γ : Type} (f : ℕ → γ) (d : γ) (n i : ℕ) (hi : i < n) :
    ((List.range n).map f).getD i d = f i := by
  rw [List.getD_eq_getElem?_getD, List.getElem?_map, List.getElem?_range hi]
  rfl

lemma countP_confusion_partition (l : List (ℕ × ℕ)) (cI : ℕ) :
    l.countP (fun x => x.1 == cI && x.2 == cI) + l.countP (fun x => x.1 == cI && !(x.2 == cI)) +
      l.countP (fun x => !(x.1 == cI) && x.2 == cI) +
      l.countP (fun x => !(x.1 == cI) && !(x.2 == cI)) = l.length := by
  induction l with
  | nil => rfl
  | cons a l ih =>
    simp only [List.countP_cons, List.length_cons]
    by_cases h1 : a.1 = cI <;> by_cases h2 : a.2 = cI <;> simp [h1, h2] <;> omega

lemma sum_map_add {α : Type} (l : List α) (f g : α → ℕ) :
    (l.map fun x => f x + g x).sum = (l.map f).sum + (l.map g).sum := by
  induction l with
  | nil => rfl
  | cons x l ih => simp [ih]; omega

lemma sum_indicator_range (K p q : ℕ) (hp : p < K) :
    ((List.range K).map fun cI => if p == cI && q == cI then 1 else 0).sum =
      if p == q then 1 else 0 := by
  induction K with
  | zero => simp at hp
  | succ K ih =>
    rw [List.range_succ, List.map_append, List.sum_append]
    rcases Nat.lt_succ_iff_lt_or_eq.mp hp with h | h
    · have hne : (p == K) = false := by simp [Nat.ne_of_lt h]
      have hK0 : (p == K && q == K) = false := by rw [hne]; rfl
      rw [ih h]
      simp only [List.map_cons, List.map_nil, List.sum_cons, List.sum_nil, hK0]
      norm_num
    · subst h
      have h0 : ((List.range p).map fun cI => if p == cI && q == cI then 1 else 0).sum = 0 := by
        apply List.sum_eq_zero
        intro x hx
        obtain ⟨cI, hcI, hval⟩ := List.mem_map.mp hx
        have : cI < p := List.mem_range.mp hcI
        have hne : (p == cI) = false := by simp [Nat.ne_of_gt this]
        rw [← hval, hne]
        rfl
      rw [h0]
      by_cases hq : q = p
      · subst hq; simp
      · have h1 : (q == p) = false := by simp [hq]
        have h2 : (p == q) = false := by simp [Ne.symm hq]
        have hA : (p == p && q == p) = false := by rw [h1]; simp
        simp only [List.map_cons, List.map_nil, List.sum_cons, List.sum_nil, hA, h2]
        rfl

lemma sum_range_tp_eq (K : ℕ) : ∀ (l : List (ℕ × ℕ)), (∀ x ∈ l, x.1 < K) →
    ((List.range K).map fun cI => l.countP fun x => x.1 == cI && x.2 == cI).sum =
      l.countP fun x => x.1 == x.2 := by
  intro l
  induction l with
  | nil => intro _; simp [List.countP_nil]
  | cons a l ih =>
    intro h
    have ha : a.1 < K := h a (by simp)
    have hl : ∀ x ∈ l, x.1 < K := fun x hx => h x (by simp [hx])
    simp only [List.countP_cons]
    rw [sum_map_add (List.range K) (fun cI => l.countP fun x => x.1 == cI && x.2 == cI)
      (fun cI => if a.1 == cI && a.2 == cI then 1 else 0), ih hl,
      sum_indicator_range K a.1 a.2 ha]

theorem argmaxIdx_lt : ∀ (xs : List ℚ), xs ≠ [] → argmaxIdx xs < xs.length
  | [], h => absurd rfl h
  | [_], _ => by simp [argmaxIdx]
  | x :: y :: r, _ => by
    rw [argmaxIdx]
    by_cases h : x < maxVal (y :: r)
    · simp only [if_pos h, List.length_cons]
      have := argmaxIdx_lt (y :: r) (by simp)
      simpa using Nat.succ_lt_succ this
    · simp [if_neg h]

lemma npNanMean_map_some (xs : List ℚ) (hne : xs ≠ []) :
    npNanMean (xs.map some) = some (xs.sum / xs.length) := by
  have h : (xs.map some).filterMap id = xs := by
    induction xs with
    | nil => rfl
    | cons x l ih => simp_all [List.filterMap_cons]
  simp [npNanMean, h, hne]

end Lemmas

/-- C7: with deterministic inputs, the non-distributed epoch-end reduction over
all per-step validation results yields the same epoch summary (per-class Dice,
mean foreground Dice, loss means and classification accuracy / precision /
recall / F1) as a two-worker distributed run whose workers process a
partition of the same per-step results.  Hypotheses: both shards are
nonempty, the segmentation count arrays share one width, and the steps are
homogeneous in their classification blocks (either none carries one, or all
carry blocks of one positive width) — the shapes any real validation run
produces. -/
theorem C7_single_equals_ddp (c K : ℕ) (w1 w2 : List StepResult)
    (h1 : w1 ≠ []) (h2 : w2 ≠ [])
    (hseg : segUniformB c (w1 ++ w2) = true)
    (hcls : clsNoneB (w1 ++ w2) = true ∨ (clsUniformB K (w1 ++ w2) = true ∧ 0 < K)) :
    (on_validation_epoch_end (w1 ++ w2)).map Prod.fst =
      (on_validation_epoch_end_ddp [w1, w2]).map Prod.fst := by
  have hne : w1 ++ w2 ≠ [] := by
    intro hc
    rw [List.append_eq_nil] at hc
    exact h1 hc.1
  obtain ⟨hseg1, hseg2⟩ := segUniformB_append hseg
  rcases hcls with hnone | ⟨huni, hK⟩
  · obtain ⟨hn1, hn2⟩ := clsNoneB_append hnone
    rw [epoch_end_none_eq (c := c) (w1 ++ w2) hne hseg hnone,
      ddp_two_none_eq w1 w2 h1 h2 hseg1 hseg2 hn1 hn2]
    simp only [List.map_append, Except.map]
    rw [sumColsW_append c _ _ (map_tp_len hseg2), sumColsW_append c _ _ (map_fp_len hseg2),
      sumColsW_append c _ _ (map_fn_len hseg2)]
  · obtain ⟨hu1, hu2⟩ := clsUniformB_append huni
    rw [epoch_end_some_eq (c := c) (K := K) (w1 ++ w2) hne hseg huni hK,
      ddp_two_some_eq w1 w2 h1 h2 hseg1 hseg2 hu1 hu2 hK]
    simp only [List.map_append, List.filterMap_append, List.sum_append, Except.map]
    rw [sumColsW_append c _ _ (map_tp_len hseg2), sumColsW_append c _ _ (map_fp_len hseg2),
      sumColsW_append c _ _ (map_fn_len hseg2), sumColsW_append K _ _ (fm_cls_tp_len hu2),
      sumColsW_append K _ _ (fm_cls_fp_len hu2), sumColsW_append K _ _ (fm_cls_fn_len hu2)]

/-- C1: contrary to the claim, the validation path does invoke an interactive
debugger: both the validation step (lines 267-268) and the epoch-end
reduction (lines 278-279, in the non-distributed and the distributed branch
alike) execute `pdb.set_trace()` on every call, here shown at concrete
inputs.  The claim is right about the intent — the spec records the
breakpoints as a defect — and the code is wrong. -/
theorem C1_pdb_breakpoint_fires :
    (validation_step trC bC).map (fun p => p.2.contains Effect.pdbSetTrace) = .ok true ∧
    (on_validation_epoch_end [stA, stB]).map (fun p => p.2.contains Effect.pdbSetTrace) =
      .ok true ∧
    (on_validation_epoch_end_ddp [[stA], [stB]]).map
      (fun p => p.2.contains Effect.pdbSetTrace) = .ok true := by
  exact ⟨by decide, by decide, by decide⟩

/-- C6: before any training step of epoch `e` runs, the epoch-start hook sets
the loss functor's classification weight to the configured maximum times
`min(e / 100, 1)`: 0 at epoch 0, half the maximum at epoch 50, and exactly
the maximum at every epoch from 100 on; every training step of the epoch
reads that value. -/
theorem C6_cls_weight_ramp (s : MTTrainerSched) (n : ℕ) :
    (on_train_epoch_start s).loss_cls_weight =
      s.cls_weight * min ((s.current_epoch : ℚ) / 100) 1 ∧
    (∀ w ∈ epochStepWeights s n, w = s.cls_weight * min ((s.current_epoch : ℚ) / 100) 1) ∧
    (s.current_epoch = 0 → (on_train_epoch_start s).loss_cls_weight = 0) ∧
    (s.current_epoch = 50 → (on_train_epoch_start s).loss_cls_weight = s.cls_weight / 2) ∧
    (100 ≤ s.current_epoch → (on_train_epoch_start s).loss_cls_weight = s.cls_weight) := by
  refine ⟨rfl, ?_, ?_, ?_, ?_⟩
  · intro w hw
    have := List.eq_of_mem_replicate hw
    rw [this]
    rfl
  · intro h
    simp [on_train_epoch_start, h]
  · intro h
    have : ((50 : ℕ) : ℚ) / 100 = 1 / 2 := by norm_num
    simp only [on_train_epoch_start, h, this]
    rw [min_eq_left (by norm_num)]
    ring
  · intro h
    have h1 : (1 : ℚ) ≤ (s.current_epoch : ℚ) / 100 := by
      rw [le_div_iff₀ (by norm_num)]
      simpa using (by exact_mod_cast h : (100 : ℚ) ≤ (s.current_epoch : ℚ))
    simp [on_train_epoch_start, min_eq_right h1]

/-- Witness for C6 at epochs 0, 50 and 120 with the configured maximum 1/2. -/
theorem C6_cls_weight_ramp_witness :
    (on_train_epoch_start
      { cls_weight := 1/2, current_epoch := 0, loss_cls_weight := 3 }).loss_cls_weight = 0 ∧
    (on_train_epoch_start
      { cls_weight := 1/2, current_epoch := 50, loss_cls_weight := 0 }).loss_cls_weight = 1/4 ∧
    (on_train_epoch_start
      { cls_weight := 1/2, current_epoch := 120, loss_cls_weight := 0 }).loss_cls_weight = 1/2 := by
  refine ⟨?_, ?_, ?_⟩
  · exact (C6_cls_weight_ramp { cls_weight := 1/2, current_epoch := 0, loss_cls_weight := 3 }
      0).2.2.1 rfl
  · have h := (C6_cls_weight_ramp { cls_weight := 1/2, current_epoch := 50, loss_cls_weight := 0 }
      0).2.2.2.1 rfl
    rw [h]
    norm_num
  · exact (C6_cls_weight_ramp { cls_weight := 1/2, current_epoch := 120, loss_cls_weight := 0 }
      0).2.2.2.2 (by norm_num)

/-- C2 counterexample: the claim says every classification count array —
tp, fp, fn and tn — is all-gathered and summed, and that the loss scalars are
also gathered then summed.  In a concrete two-worker run that does aggregate
classification counts, no all-gather for `cls_tn` is ever issued (the code
sums it locally and never reduces it), and the reduced total loss is the mean
2 of the workers' step losses 1 and 3, not their sum 4. -/
theorem C2_counterexample_tn_not_gathered :
    (on_validation_epoch_end_ddp [[stA], [stB]]).map
      (fun p => p.2.contains (Effect.allGather GatherTag.clsTnTag)) = .ok false ∧
    (on_validation_epoch_end_ddp [[stA], [stB]]).map
      (fun p => p.2.contains (Effect.allGather GatherTag.clsTpTag)) = .ok true ∧
    (on_validation_epoch_end_ddp [[stA], [stB]]).map (fun p => p.1.total_loss) =
      .ok (some 2) ∧
    stA.loss + stB.loss = 4 := by
  exact ⟨by decide, by decide, by decide, by decide⟩

/-- C2 (amended): in a distributed run, every worker issues the same ordered
sequence of all-gather calls — segmentation tp, fp, fn, then the three loss
arrays, then (exactly when the workers' shared classification guard holds)
classification tp, fp, fn, correct, total; the true-negative array is never
gathered.  Gathered count stacks are summed across workers, the gathered
correct/total scalars are summed, and the gathered per-step loss arrays are
averaged over all their entries rather than summed.  Workers disagreeing on
the classification guard would issue mismatched collectives (the modelled run
errors instead of deadlocking), so a successful run has every worker on the
same guard. -/
theorem C2_amended_gather_protocol (workers : List (List StepResult)) (c0 : Collated)
    (crest : List Collated) (S : EpochSummary) (E : List Effect)
    (hcols : collateAll workers = .ok (c0 :: crest))
    (hrun : on_validation_epoch_end_ddp workers = .ok (S, E)) :
    E = Effect.pdbSetTrace :: (workerGatherCalls (hasClsFlag c0)).map Effect.allGather ∧
    (∀ ci ∈ c0 :: crest, workerGatherCalls (hasClsFlag ci) = workerGatherCalls (hasClsFlag c0)) ∧
    GatherTag.clsTnTag ∉ workerGatherCalls (hasClsFlag c0) ∧
    S = epochSummaryOf
          (sumCols ((c0 :: crest).map fun x => sumCols x.tpH))
          (sumCols ((c0 :: crest).map fun x => sumCols x.fpH))
          (sumCols ((c0 :: crest).map fun x => sumCols x.fnH))
          (npMean ((c0 :: crest).map (·.loss)).flatten)
          (npMean ((c0 :: crest).map (·.seg_loss)).flatten)
          (npMean ((c0 :: crest).map (·.cls_loss)).flatten)
          (if hasClsFlag c0 then
            some { tpA := sumCols ((c0 :: crest).map fun x => sumCols (clsStackOf x).tpS)
                   fpA := sumCols ((c0 :: crest).map fun x => sumCols (clsStackOf x).fpS)
                   fnA := sumCols ((c0 :: crest).map fun x => sumCols (clsStackOf x).fnS)
                   correctA := ((c0 :: crest).map fun x => (clsStackOf x).correctS.sum).sum
                   totalA := ((c0 :: crest).map fun x => (clsStackOf x).totalS.sum).sum }
           else none) := by
  simp only [on_validation_epoch_end_ddp, hcols] at hrun
  split at hrun
  case isFalse => simp at hrun
  case isTrue h1 =>
    split at hrun
    case isFalse => simp at hrun
    case isTrue h2 =>
      rw [Except.ok.injEq, Prod.mk.injEq] at hrun
      obtain ⟨hS, hE⟩ := hrun
      refine ⟨hE.symm, ?_, ?_, hS.symm⟩
      · intro ci hci
        rcases List.mem_cons.mp hci with h | h
        · rw [h]
        · have := (List.all_eq_true.mp h1) ci h
          rw [beq_iff_eq.mp this]
      · cases hf : hasClsFlag c0 <;> decide

/-- Witness for C2 (amended) at a concrete two-worker run with
classification blocks present. -/
theorem C2_amended_gather_protocol_witness :
    collateAll [[stA], [stB]] = .ok [colSome [stA], colSome [stB]] ∧
    on_validation_epoch_end_ddp [[stA], [stB]] = .ok
      (epochSummaryOf
        (sumCols ([colSome [stA], colSome [stB]].map fun x => sumCols x.tpH))
        (sumCols ([colSome [stA], colSome [stB]].map fun x => sumCols x.fpH))
        (sumCols ([colSome [stA], colSome [stB]].map fun x => sumCols x.fnH))
        (npMean ([colSome [stA], colSome [stB]].map (·.loss)).flatten)
        (npMean ([colSome [stA], colSome [stB]].map (·.seg_loss)).flatten)
        (npMean ([colSome [stA], colSome [stB]].map (·.cls_loss)).flatten)
        (if hasClsFlag (colSome [stA]) then
          some { tpA := sumCols ([colSome [stA], colSome [stB]].map fun x => sumCols (clsStackOf x).tpS)
                 fpA := sumCols ([colSome [stA], colSome [stB]].map fun x => sumCols (clsStackOf x).fpS)
                 fnA := sumCols ([colSome [stA], colSome [stB]].map fun x => sumCols (clsStackOf x).fnS)
                 correctA := ([colSome [stA], colSome [stB]].map fun x => (clsStackOf x).correctS.sum).sum
                 totalA := ([colSome [stA], colSome [stB]].map fun x => (clsStackOf x).totalS.sum).sum }
         else none),
        Effect.pdbSetTrace :: (workerGatherCalls (hasClsFlag (colSome [stA]))).map Effect.allGather) ∧
    GatherTag.clsTnTag ∉ workerGatherCalls (hasClsFlag (colSome [stA])) := by
  have h1 : collateAll [[stA], [stB]] = .ok [colSome [stA], colSome [stB]] := by decide
  have h2 : on_validation_epoch_end_ddp [[stA], [stB]] = .ok
      (epochSummaryOf
        (sumCols ([colSome [stA], colSome [stB]].map fun x => sumCols x.tpH))
        (sumCols ([colSome [stA], colSome [stB]].map fun x => sumCols x.fpH))
        (sumCols ([colSome [stA], colSome [stB]].map fun x => sumCols x.fnH))
        (npMean ([colSome [stA], colSome [stB]].map (·.loss)).flatten)
        (npMean ([colSome [stA], colSome [stB]].map (·.seg_loss)).flatten)
        (npMean ([colSome [stA], colSome [stB]].map (·.cls_loss)).flatten)
        (if hasClsFlag (colSome [stA]) then
          some { tpA := sumCols ([colSome [stA], colSome [stB]].map fun x => sumCols (clsStackOf x).tpS)
                 fpA := sumCols ([colSome [stA], colSome [stB]].map fun x => sumCols (clsStackOf x).fpS)
                 fnA := sumCols ([colSome [stA], colSome [stB]].map fun x => sumCols (clsStackOf x).fnS)
                 correctA := ([colSome [stA], colSome [stB]].map fun x => (clsStackOf x).correctS.sum).sum
                 totalA := ([colSome [stA], colSome [stB]].map fun x => (clsStackOf x).totalS.sum).sum }
         else none),
        Effect.pdbSetTrace :: (workerGatherCalls (hasClsFlag (colSome [stA]))).map Effect.allGather) := by
    decide
  exact ⟨h1, h2,
    (C2_amended_gather_protocol [[stA], [stB]] (colSome [stA]) [colSome [stB]] _ _ h1 h2).2.2.1⟩

/-- C3 counterexample: a network output that is a two-entry dict with keys
other than segmentation / classification is "another output shape", yet both
steps raise a KeyError on it instead of degrading to segmentation-only. -/
theorem C3_counterexample_keyerror :
    validation_step trBad bC = .error ("KeyError: segmentation") ∧
    train_step trBad bC = .error ("KeyError: segmentation") := by
  exact ⟨by decide, by decide⟩

/-- C4: the epoch-end reduction computes per-class Dice `2*tp/(2*tp+fp+fn)`
exactly where the denominator is nonzero, NaN (`none`) for a class whose
denominator is zero, and the mean foreground Dice as the mean over the
per-class values ignoring the NaN entries. -/
theorem C4_dice_formula (tp fp fn : List ℕ) (l sl cl : ℚ) (S : EpochSummary) (E : List Effect)
    (hfp : fp.length = tp.length) (hfn : fn.length = tp.length)
    (hrun : on_validation_epoch_end
      [{ loss := l, seg_loss := sl, cls_loss := cl, tp_hard := tp, fp_hard := fp,
         fn_hard := fn, cls := none }] = .ok (S, E)) :
    S.dice_per_class.length = tp.length ∧
    (∀ i, i < tp.length → S.dice_per_class.getD i none =
      (if 2 * tp.getD i 0 + fp.getD i 0 + fn.getD i 0 = 0 then none
       else some (((2 * tp.getD i 0 : ℕ) : ℚ) /
         ((2 * tp.getD i 0 + fp.getD i 0 + fn.getD i 0 : ℕ) : ℚ)))) ∧
    S.mean_fg_dice = (if (S.dice_per_class.filterMap id).isEmpty then none
      else some ((S.dice_per_class.filterMap id).sum /
        ((S.dice_per_class.filterMap id).length : ℚ))) := by
  have hseg : segUniformB tp.length
      [{ loss := l, seg_loss := sl, cls_loss := cl, tp_hard := tp, fp_hard := fp,
         fn_hard := fn, cls := none }] = true := by
    simp [segUniformB, hfp, hfn]
  have hcl : clsNoneB
      [{ loss := l, seg_loss := sl, cls_loss := cl, tp_hard := tp, fp_hard := fp,
         fn_hard := fn, cls := none }] = true := by
    simp [clsNoneB]
  rw [epoch_end_none_eq (c := tp.length) _ (by simp) hseg hcl, Except.ok.injEq,
    Prod.mk.injEq] at hrun
  obtain ⟨hS, _⟩ := hrun
  have htp : sumColsW tp.length [tp] = tp := by
    rw [sumColsW_cons, sumColsW_nil]; exact vadd_replicate_zero tp tp.length rfl
  have hfp2 : sumColsW tp.length [fp] = fp := by
    rw [sumColsW_cons, sumColsW_nil]; exact vadd_replicate_zero fp tp.length hfp
  have hfn2 : sumColsW tp.length [fn] = fn := by
    rw [sumColsW_cons, sumColsW_nil]; exact vadd_replicate_zero fn tp.length hfn
  rw [← hS]
  simp only [List.map_cons, List.map_nil, htp, hfp2, hfn2, epochSummaryOf]
  refine ⟨dicePerClass_length tp fp fn hfp hfn, ?_, rfl⟩
  intro i hi
  exact dicePerClass_getD tp fp fn i hi hfp hfn

/-- Witness for C4 at the concrete counts tp `[5,0]`, fp `[1,0]`, fn `[1,0]`:
class 0 has Dice 5/6, class 1 has NaN, and the NaN-ignoring mean is 5/6. -/
theorem C4_dice_formula_witness :
    on_validation_epoch_end [stN] = .ok
      ({ mean_fg_dice := some (5/6), dice_per_class := [some (5/6), none]
         total_loss := some 1, seg_loss := some 1, cls_loss := some 0
         clsSummary := none }, [Effect.pdbSetTrace]) ∧
    ({ mean_fg_dice := some (5/6), dice_per_class := [some (5/6), none]
       total_loss := some 1, seg_loss := some 1, cls_loss := some 0
       clsSummary := none } : EpochSummary).dice_per_class.getD 0 none = some (5/6) ∧
    ({ mean_fg_dice := some (5/6), dice_per_class := [some (5/6), none]
       total_loss := some 1, seg_loss := some 1, cls_loss := some 0
       clsSummary := none } : EpochSummary).dice_per_class.getD 1 none = none := by
  have h1 : on_validation_epoch_end [stN] = .ok
      ({ mean_fg_dice := some (5/6), dice_per_class := [some (5/6), none]
         total_loss := some 1, seg_loss := some 1, cls_loss := some 0
         clsSummary := none }, [Effect.pdbSetTrace]) := by decide
  have h := C4_dice_formula [5, 0] [1, 0] [1, 0] 1 1 0 _ _ rfl rfl h1
  refine ⟨h1, ?_, ?_⟩
  · exact (h.2.1 0 (by norm_num)).trans (by decide)
  · exact (h.2.1 1 (by norm_num)).trans (by decide)

lemma clsMetricsOf_range (tp fp fn : List ℕ) (corr tot : ℕ) (K : ℕ)
    (htp : tp.length = K) (hfp : fp.length = K) (hfn : fn.length = K) (hK : 0 < K) :
    clsMetricsOf { tpA := tp, fpA := fp, fnA := fn, correctA := corr, totalA := tot } =
      { cls_accuracy := if tot = 0 then 0 else (corr : ℚ) / (tot : ℚ)
        cls_precision_per_class := (List.range K).map fun i =>
          if tp.getD i 0 + fp.getD i 0 = 0 then 0
          else ((tp.getD i 0 : ℕ) : ℚ) / ((tp.getD i 0 + fp.getD i 0 : ℕ) : ℚ)
        cls_recall_per_class := (List.range K).map fun i =>
          if tp.getD i 0 + fn.getD i 0 = 0 then 0
          else ((tp.getD i 0 : ℕ) : ℚ) / ((tp.getD i 0 + fn.getD i 0 : ℕ) : ℚ)
        cls_f1_per_class := (List.range K).map fun i =>
          (fun p r => if p + r = 0 then 0 else 2 * p * r / (p + r))
            (if tp.getD i 0 + fp.getD i 0 = 0 then 0
             else ((tp.getD i 0 : ℕ) : ℚ) / ((tp.getD i 0 + fp.getD i 0 : ℕ) : ℚ))
            (if tp.getD i 0 + fn.getD i 0 = 0 then 0
             else ((tp.getD i 0 : ℕ) : ℚ) / ((tp.getD i 0 + fn.getD i 0 : ℕ) : ℚ))
        cls_macro_precision := some ((((List.range K).map fun i =>
          if tp.getD i 0 + fp.getD i 0 = 0 then 0
          else ((tp.getD i 0 : ℕ) : ℚ) / ((tp.getD i 0 + fp.getD i 0 : ℕ) : ℚ)).sum) / (K : ℚ))
        cls_macro_recall := some ((((List.range K).map fun i =>
          if tp.getD i 0 + fn.getD i 0 = 0 then 0
          else ((tp.getD i 0 : ℕ) : ℚ) / ((tp.getD i 0 + fn.getD i 0 : ℕ) : ℚ)).sum) / (K : ℚ))
        cls_macro_f1 := some ((((List.range K).map fun i =>
          (fun p r => if p + r = 0 then 0 else 2 * p * r / (p + r))
            (if tp.getD i 0 + fp.getD i 0 = 0 then 0
             else ((tp.getD i 0 : ℕ) : ℚ) / ((tp.getD i 0 + fp.getD i 0 : ℕ) : ℚ))
            (if tp.getD i 0 + fn.getD i 0 = 0 then 0
             else ((tp.getD i 0 : ℕ) : ℚ) /
               ((tp.getD i 0 + fn.getD i 0 : ℕ) : ℚ))).sum) / (K : ℚ)) } := by
  have hprec : List.zipWith (fun (t f : ℕ) => npDivWhere (t : ℚ) ((t + f : ℕ) : ℚ)) tp fp =
      (List.range K).map fun i =>
        if tp.getD i 0 + fp.getD i 0 = 0 then 0
        else ((tp.getD i 0 : ℕ) : ℚ) / ((tp.getD i 0 + fp.getD i 0 : ℕ) : ℚ) := by
    rw [zipWith_eq_range_map _ 0 0 tp fp (by rw [htp, hfp]), htp]
    refine List.map_congr_left fun i _ => ?_
    simp only [npDivWhere, Nat.cast_eq_zero]
  have hrec : List.zipWith (fun (t f : ℕ) => npDivWhere (t : ℚ) ((t + f : ℕ) : ℚ)) tp fn =
      (List.range K).map fun i =>
        if tp.getD i 0 + fn.getD i 0 = 0 then 0
        else ((tp.getD i 0 : ℕ) : ℚ) / ((tp.getD i 0 + fn.getD i 0 : ℕ) : ℚ) := by
    rw [zipWith_eq_range_map _ 0 0 tp fn (by rw [htp, hfn]), htp]
    refine List.map_congr_left fun i _ => ?_
    simp only [npDivWhere, Nat.cast_eq_zero]
  have hf1 : List.zipWith (fun p r => npDivWhere (2 * p * r) (p + r))
      (List.zipWith (fun (t f : ℕ) => npDivWhere (t : ℚ) ((t + f : ℕ) : ℚ)) tp fp)
      (List.zipWith (fun (t f : ℕ) => npDivWhere (t : ℚ) ((t + f : ℕ) : ℚ)) tp fn) =
      (List.range K).map fun i =>
        (fun p r => if p + r = 0 then 0 else 2 * p * r / (p + r))
          (if tp.getD i 0 + fp.getD i 0 = 0 then 0
           else ((tp.getD i 0 : ℕ) : ℚ) / ((tp.getD i 0 + fp.getD i 0 : ℕ) : ℚ))
          (if tp.getD i 0 + fn.getD i 0 = 0 then 0
           else ((tp.getD i 0 : ℕ) : ℚ) / ((tp.getD i 0 + fn.getD i 0 : ℕ) : ℚ)) := by
    rw [hprec, hrec, zipWith_map_same]
    exact List.map_congr_left fun i _ => rfl
  have hne : ∀ (xs : List ℚ), xs.length = K → xs ≠ [] := by
    intro xs hxs hemp
    rw [hemp] at hxs
    simp at hxs
    omega
  have hlenp : ((List.range K).map fun i =>
      if tp.getD i 0 + fp.getD i 0 = 0 then 0
      else ((tp.getD i 0 : ℕ) : ℚ) / ((tp.getD i 0 + fp.getD i 0 : ℕ) : ℚ)).length = K := by
    simp
  have hlen5 : ∀ (f : ℕ → ℚ), ((List.range K).map f).length = K := by
    intro f; simp
  have hacc : (if 0 < tot then (corr : ℚ) / (tot : ℚ) else 0) =
      (if tot = 0 then 0 else (corr : ℚ) / (tot : ℚ)) := by
    rcases Nat.eq_zero_or_pos tot with h | h
    · simp [h]
    · rw [if_pos h, if_neg (by omega)]
  clear hf1 hlenp
  simp only [clsMetricsOf, hacc, hprec, hrec, zipWith_map_same]
  rw [npNanMean_map_some _ (hne _ (hlen5 _)), npNanMean_map_some _ (hne _ (hlen5 _)),
    npNanMean_map_some _ (hne _ (hlen5 _))]
  simp only [hlen5]
  rfl

/-- C5: from the aggregated classification counts, the epoch-end reduction
computes accuracy = correct/total (0 when total is 0), per-class precision =
tp/(tp+fp) (0 when the denominator is 0), recall = tp/(tp+fn) (0 when the
denominator is 0), F1 = 2*precision*recall/(precision+recall) (0 when the
denominator is 0), and each macro average as the mean over classes ignoring
NaN entries — none of these per-class values is NaN, so the macro averages
are the plain means.  The claim's concrete instance (tp=[2,0], fp=[1,0],
fn=[0,3], 7 correct of 10) is evaluated in the witness. -/
theorem C5_cls_metrics (stp sfp sfn : List ℕ) (l sl cl : ℚ) (tp fp fn tn : List ℕ)
    (corr tot K : ℕ) (S : EpochSummary) (E : List Effect)
    (hsfp : sfp.length = stp.length) (hsfn : sfn.length = stp.length)
    (htp : tp.length = K) (hfp : fp.length = K) (hfn : fn.length = K) (htn : tn.length = K)
    (hK : 0 < K)
    (hrun : on_validation_epoch_end
      [{ loss := l, seg_loss := sl, cls_loss := cl, tp_hard := stp, fp_hard := sfp,
         fn_hard := sfn,
         cls := some { cls_tp := tp, cls_fp := fp, cls_fn := fn, cls_tn := tn,
                       cls_correct := corr, cls_total := tot } }] = .ok (S, E)) :
    S.clsSummary = some
      { cls_accuracy := if tot = 0 then 0 else (corr : ℚ) / (tot : ℚ)
        cls_precision_per_class := (List.range K).map fun i =>
          if tp.getD i 0 + fp.getD i 0 = 0 then 0
          else ((tp.getD i 0 : ℕ) : ℚ) / ((tp.getD i 0 + fp.getD i 0 : ℕ) : ℚ)
        cls_recall_per_class := (List.range K).map fun i =>
          if tp.getD i 0 + fn.getD i 0 = 0 then 0
          else ((tp.getD i 0 : ℕ) : ℚ) / ((tp.getD i 0 + fn.getD i 0 : ℕ) : ℚ)
        cls_f1_per_class := (List.range K).map fun i =>
          (fun p r => if p + r = 0 then 0 else 2 * p * r / (p + r))
            (if tp.getD i 0 + fp.getD i 0 = 0 then 0
             else ((tp.getD i 0 : ℕ) : ℚ) / ((tp.getD i 0 + fp.getD i 0 : ℕ) : ℚ))
            (if tp.getD i 0 + fn.getD i 0 = 0 then 0
             else ((tp.getD i 0 : ℕ) : ℚ) / ((tp.getD i 0 + fn.getD i 0 : ℕ) : ℚ))
        cls_macro_precision := some ((((List.range K).map fun i =>
          if tp.getD i 0 + fp.getD i 0 = 0 then 0
          else ((tp.getD i 0 : ℕ) : ℚ) / ((tp.getD i 0 + fp.getD i 0 : ℕ) : ℚ)).sum) / (K : ℚ))
        cls_macro_recall := some ((((List.range K).map fun i =>
          if tp.getD i 0 + fn.getD i 0 = 0 then 0
          else ((tp.getD i 0 : ℕ) : ℚ) / ((tp.getD i 0 + fn.getD i 0 : ℕ) : ℚ)).sum) / (K : ℚ))
        cls_macro_f1 := some ((((List.range K).map fun i =>
          (fun p r => if p + r = 0 then 0 else 2 * p * r / (p + r))
            (if tp.getD i 0 + fp.getD i 0 = 0 then 0
             else ((tp.getD i 0 : ℕ) : ℚ) / ((tp.getD i 0 + fp.getD i 0 : ℕ) : ℚ))
            (if tp.getD i 0 + fn.getD i 0 = 0 then 0
             else ((tp.getD i 0 : ℕ) : ℚ) /
               ((tp.getD i 0 + fn.getD i 0 : ℕ) : ℚ))).sum) / (K : ℚ)) } := by
  have hseg : segUniformB stp.length
      [{ loss := l, seg_loss := sl, cls_loss := cl, tp_hard := stp, fp_hard := sfp,
         fn_hard := sfn,
         cls := some { cls_tp := tp, cls_fp := fp, cls_fn := fn, cls_tn := tn,
                       cls_correct := corr, cls_total := tot } }] = true := by
    simp [segUniformB, hsfp, hsfn]
  have hcls : clsUniformB K
      [{ loss := l, seg_loss := sl, cls_loss := cl, tp_hard := stp, fp_hard := sfp,
         fn_hard := sfn,
         cls := some { cls_tp := tp, cls_fp := fp, cls_fn := fn, cls_tn := tn,
                       cls_correct := corr, cls_total := tot } }] = true := by
    simp [clsUniformB, clsLenOkB, htp, hfp, hfn, htn]
  rw [epoch_end_some_eq (c := stp.length) (K := K) _ (by simp) hseg hcls hK,
    Except.ok.injEq, Prod.mk.injEq] at hrun
  obtain ⟨hS, _⟩ := hrun
  rw [← hS]
  have h1 : sumColsW K [tp] = tp := by
    rw [sumColsW_cons, sumColsW_nil]; exact vadd_replicate_zero tp K htp
  have h2 : sumColsW K [fp] = fp := by
    rw [sumColsW_cons, sumColsW_nil]; exact vadd_replicate_zero fp K hfp
  have h3 : sumColsW K [fn] = fn := by
    rw [sumColsW_cons, sumColsW_nil]; exact vadd_replicate_zero fn K hfn
  simp only [List.filterMap_cons, List.filterMap_nil, List.map_cons, List.map_nil,
    List.sum_cons, List.sum_nil, Nat.add_zero, epochSummaryOf]
  simp only [h1, h2, h3, Option.map_some']
  rw [clsMetricsOf_range tp fp fn corr tot K htp hfp hfn hK]

/-- Witness for C5 at the claim's concrete counts: tp=[2,0], fp=[1,0],
fn=[0,3], 7 correct of 10 total yield precision [2/3, 0], recall [1, 0],
F1 [4/5, 0], macro-F1 2/5 and accuracy 7/10. -/
theorem C5_cls_metrics_witness :
    on_validation_epoch_end
      [{ loss := 1, seg_loss := 1, cls_loss := 1, tp_hard := [0], fp_hard := [0],
         fn_hard := [0],
         cls := some { cls_tp := [2, 0], cls_fp := [1, 0], cls_fn := [0, 3], cls_tn := [0, 0],
                       cls_correct := 7, cls_total := 10 } }] = .ok
      ({ mean_fg_dice := none, dice_per_class := [none], total_loss := some 1,
         seg_loss := some 1, cls_loss := some 1,
         clsSummary := some
           { cls_accuracy := 7/10, cls_precision_per_class := [2/3, 0]
             cls_recall_per_class := [1, 0], cls_f1_per_class := [4/5, 0]
             cls_macro_precision := some (1/3), cls_macro_recall := some (1/2)
             cls_macro_f1 := some (2/5) } }, [Effect.pdbSetTrace]) ∧
    ({ mean_fg_dice := none, dice_per_class := [none], total_loss := some 1,
       seg_loss := some 1, cls_loss := some 1,
       clsSummary := some
         { cls_accuracy := 7/10, cls_precision_per_class := [2/3, 0]
           cls_recall_per_class := [1, 0], cls_f1_per_class := [4/5, 0]
           cls_macro_precision := some (1/3), cls_macro_recall := some (1/2)
           cls_macro_f1 := some (2/5) } } : EpochSummary).clsSummary = some
      { cls_accuracy := 7/10, cls_precision_per_class := [2/3, 0]
        cls_recall_per_class := [1, 0], cls_f1_per_class := [4/5, 0]
        cls_macro_precision := some (1/3), cls_macro_recall := some (1/2)
        cls_macro_f1 := some (2/5) } := by
  have h1 : on_validation_epoch_end
      [{ loss := 1, seg_loss := 1, cls_loss := 1, tp_hard := [0], fp_hard := [0],
         fn_hard := [0],
         cls := some { cls_tp := [2, 0], cls_fp := [1, 0], cls_fn := [0, 3], cls_tn := [0, 0],
                       cls_correct := 7, cls_total := 10 } }] = .ok
      ({ mean_fg_dice := none, dice_per_class := [none], total_loss := some 1,
         seg_loss := some 1, cls_loss := some 1,
         clsSummary := some
           { cls_accuracy := 7/10, cls_precision_per_class := [2/3, 0]
             cls_recall_per_class := [1, 0], cls_f1_per_class := [4/5, 0]
             cls_macro_precision := some (1/3), cls_macro_recall := some (1/2)
             cls_macro_f1 := some (2/5) } }, [Effect.pdbSetTrace]) := by decide
  have h := C5_cls_metrics [0] [0] [0] 1 1 1 [2, 0] [1, 0] [0, 3] [0, 0] 7 10 2 _ _
    rfl rfl rfl rfl rfl rfl (by norm_num) h1
  exact ⟨h1, h.trans (by decide)⟩

/-- C3 (amended): both steps split the network output into (segmentation,
classification) exactly when it is a dict with the two fields segmentation
and classification.  A single-tensor output degrades to segmentation-only in
both steps without error.  A dict with a number of entries other than two
degrades in the training step (the whole dict is passed to the loss functor
as the segmentation output, classification absent), but the validation step
fails at its segmentation-metric computation on such an output; and a
two-entry dict lacking either of the two keys raises a key error in both
steps rather than degrading (the segmentation subscript is evaluated first,
so its key error wins when both are absent). -/
theorem C3_amended_output_split (tr : VTrainer) (b : Batch) :
    (∀ t, tr.network b.data = PyVal.seg t →
      validation_step tr b = .ok
        ({ loss := lget (tr.lossFn (PyVal.seg t) b.target none b.class_target) "total_loss"
           seg_loss := lget (tr.lossFn (PyVal.seg t) b.target none b.class_target) "seg_loss"
           cls_loss := lget (tr.lossFn (PyVal.seg t) b.target none b.class_target) "cls_loss"
           tp_hard := segTpHard t b.target, fp_hard := segFpHard t b.target
           fn_hard := segFnHard t b.target, cls := none }, [Effect.pdbSetTrace]) ∧
      (((tr.lossFn (PyVal.seg t) b.target none b.class_target).find? fun e => e.1 == "loss") ≠
          none →
        train_step tr b = .ok (tr.lossFn (PyVal.seg t) b.target none b.class_target,
          [Effect.zeroGrad, Effect.backward, Effect.optimizerStep]))) ∧
    (∀ es s rows, tr.network b.data = PyVal.dict es → es.length = 2 →
      dictLookup es "segmentation" = some (PyVal.seg s) →
      dictLookup es "classification" = some (PyVal.cls rows) →
      validation_step tr b = .ok
        ({ loss := lget (tr.lossFn (PyVal.seg s) b.target (some (PyVal.cls rows))
             b.class_target) "total_loss"
           seg_loss := lget (tr.lossFn (PyVal.seg s) b.target (some (PyVal.cls rows))
             b.class_target) "seg_loss"
           cls_loss := lget (tr.lossFn (PyVal.seg s) b.target (some (PyVal.cls rows))
             b.class_target) "cls_loss"
           tp_hard := segTpHard s b.target, fp_hard := segFpHard s b.target
           fn_hard := segFnHard s b.target
           cls := some (clsConfusion rows b.class_target) }, [Effect.pdbSetTrace]) ∧
      (((tr.lossFn (PyVal.seg s) b.target (some (PyVal.cls rows)) b.class_target).find?
          fun e => e.1 == "loss") ≠ none →
        train_step tr b = .ok
          (tr.lossFn (PyVal.seg s) b.target (some (PyVal.cls rows)) b.class_target,
           [Effect.zeroGrad, Effect.backward, Effect.optimizerStep]))) ∧
    (∀ es, tr.network b.data = PyVal.dict es → es.length ≠ 2 →
      validation_step tr b = .error ("AttributeError: ndim on non-tensor segmentation output") ∧
      (((tr.lossFn (PyVal.dict es) b.target none b.class_target).find? fun e => e.1 == "loss") ≠
          none →
        train_step tr b = .ok (tr.lossFn (PyVal.dict es) b.target none b.class_target,
          [Effect.zeroGrad, Effect.backward, Effect.optimizerStep]))) ∧
    (∀ es, tr.network b.data = PyVal.dict es → es.length = 2 →
      dictLookup es "segmentation" = none →
      validation_step tr b = .error ("KeyError: segmentation") ∧
      train_step tr b = .error ("KeyError: segmentation")) ∧
    (∀ es v, tr.network b.data = PyVal.dict es → es.length = 2 →
      dictLookup es "segmentation" = some v →
      dictLookup es "classification" = none →
      validation_step tr b = .error ("KeyError: classification") ∧
      train_step tr b = .error ("KeyError: classification")) := by
  refine ⟨?_, ?_, ?_, ?_, ?_⟩
  · intro t hnet
    constructor
    · simp [validation_step, splitNetworkOutput, hnet]
    · intro hfind
      obtain ⟨e, he⟩ := Option.ne_none_iff_exists'.mp hfind
      simp [train_step, splitNetworkOutput, hnet, he]
  · intro es s rows hnet hlen hseg hcls
    constructor
    · simp [validation_step, splitNetworkOutput, hnet, hlen, hseg, hcls]
    · intro hfind
      obtain ⟨e, he⟩ := Option.ne_none_iff_exists'.mp hfind
      simp [train_step, splitNetworkOutput, hnet, hlen, hseg, hcls, he]
  · intro es hnet hlen
    constructor
    · simp [validation_step, splitNetworkOutput, hnet, hlen]
    · intro hfind
      obtain ⟨e, he⟩ := Option.ne_none_iff_exists'.mp hfind
      simp [train_step, splitNetworkOutput, hnet, hlen, he]
  · intro es hnet hlen hseg
    constructor
    · simp [validation_step, splitNetworkOutput, hnet, hlen, hseg]
    · simp [train_step, splitNetworkOutput, hnet, hlen, hseg]
  · intro es v hnet hlen hseg hcls
    constructor
    · simp [validation_step, splitNetworkOutput, hnet, hlen, hseg, hcls]
    · simp [train_step, splitNetworkOutput, hnet, hlen, hseg, hcls]

/-- Witness for C3 (amended): the two-field record is split in both the
validation step (classification metrics present) and the training step
(classification prediction passed to the loss functor); a two-entry dict
with wrong keys raises in both steps; and a two-entry dict missing only the
classification key raises its key error. -/
theorem C3_amended_output_split_witness :
    validation_step trC bC = .ok
      ({ loss := 7, seg_loss := 5, cls_loss := 2, tp_hard := [1], fp_hard := [0], fn_hard := [1]
         cls := some { cls_tp := [0, 1, 0], cls_fp := [0, 0, 0], cls_fn := [0, 0, 0]
                       cls_tn := [1, 0, 1], cls_correct := 1, cls_total := 1 } },
        [Effect.pdbSetTrace]) ∧
    train_step trC bC = .ok
      ([("total_loss", 7), ("seg_loss", 5), ("cls_loss", 2), ("loss", 7)],
       [Effect.zeroGrad, Effect.backward, Effect.optimizerStep]) ∧
    validation_step trBad bC = .error ("KeyError: segmentation") ∧
    train_step trBad bC = .error ("KeyError: segmentation") ∧
    validation_step trBad2 bC = .error ("KeyError: classification") ∧
    train_step trBad2 bC = .error ("KeyError: classification") := by
  have h := (C3_amended_output_split trC bC).2.1
    [("segmentation", PyVal.seg [[[1, 0], [0, 2]]]), ("classification", PyVal.cls [[1, 2, 0]])]
    [[[1, 0], [0, 2]]] [[1, 2, 0]] rfl rfl rfl rfl
  have h4 := (C3_amended_output_split trBad bC).2.2.2.1
    [("a", PyVal.seg [[[1]]]), ("b", PyVal.seg [[[1]]])] rfl rfl rfl
  have h5 := (C3_amended_output_split trBad2 bC).2.2.2.2
    [("segmentation", PyVal.seg [[[1]]]), ("b", PyVal.seg [[[1]]])] (PyVal.seg [[[1]]])
    rfl rfl rfl rfl
  exact ⟨h.1.trans (by decide), (h.2 (by decide)).trans (by decide), h4.1, h4.2, h5.1, h5.2⟩

/-- C8: elementwise-summing the per-step segmentation counts across all
validation steps and then computing Dice at epoch end equals computing Dice
from a single step whose counts are those sums (the whole validation set in
one step): sum-then-divide is insensitive to how the counts were split into
steps. -/
theorem C8_sum_then_dice (c : ℕ) (trip : List (List ℕ × List ℕ × List ℕ))
    (hne : trip ≠ [])
    (hlen : ∀ x ∈ trip, x.1.length = c ∧ x.2.1.length = c ∧ x.2.2.length = c) :
    (on_validation_epoch_end (trip.map fun x =>
        { loss := 0, seg_loss := 0, cls_loss := 0, tp_hard := x.1, fp_hard := x.2.1,
          fn_hard := x.2.2, cls := none })).map
      (fun p => (p.1.dice_per_class, p.1.mean_fg_dice)) =
    (on_validation_epoch_end
        [{ loss := 0, seg_loss := 0, cls_loss := 0, tp_hard := sumColsW c (trip.map (·.1)),
           fp_hard := sumColsW c (trip.map (·.2.1)), fn_hard := sumColsW c (trip.map (·.2.2)),
           cls := none }]).map (fun p => (p.1.dice_per_class, p.1.mean_fg_dice)) := by
  have hne2 : (trip.map fun x =>
      ({ loss := 0, seg_loss := 0, cls_loss := 0, tp_hard := x.1, fp_hard := x.2.1,
         fn_hard := x.2.2, cls := none } : StepResult)) ≠ [] := by
    intro hcon
    exact hne (List.map_eq_nil_iff.mp hcon)
  have hsegw : segUniformB c (trip.map fun x =>
      ({ loss := 0, seg_loss := 0, cls_loss := 0, tp_hard := x.1, fp_hard := x.2.1,
         fn_hard := x.2.2, cls := none } : StepResult)) = true := by
    simp only [segUniformB]
    apply List.all_eq_true.mpr
    intro s hs
    obtain ⟨x, hxw, rfl⟩ := List.mem_map.mp hs
    obtain ⟨e1, e2, e3⟩ := hlen x hxw
    simp [e1, e2, e3]
  have hclsw : clsNoneB (trip.map fun x =>
      ({ loss := 0, seg_loss := 0, cls_loss := 0, tp_hard := x.1, fp_hard := x.2.1,
         fn_hard := x.2.2, cls := none } : StepResult)) = true := by
    simp only [clsNoneB]
    apply List.all_eq_true.mpr
    intro s hs
    obtain ⟨x, hxw, rfl⟩ := List.mem_map.mp hs
    rfl
  have hm1 : (trip.map fun x =>
      ({ loss := 0, seg_loss := 0, cls_loss := 0, tp_hard := x.1, fp_hard := x.2.1,
         fn_hard := x.2.2, cls := none } : StepResult)).map (·.tp_hard) = trip.map (·.1) := by
    rw [List.map_map]; rfl
  have hm2 : (trip.map fun x =>
      ({ loss := 0, seg_loss := 0, cls_loss := 0, tp_hard := x.1, fp_hard := x.2.1,
         fn_hard := x.2.2, cls := none } : StepResult)).map (·.fp_hard) = trip.map (·.2.1) := by
    rw [List.map_map]; rfl
  have hm3 : (trip.map fun x =>
      ({ loss := 0, seg_loss := 0, cls_loss := 0, tp_hard := x.1, fp_hard := x.2.1,
         fn_hard := x.2.2, cls := none } : StepResult)).map (·.fn_hard) = trip.map (·.2.2) := by
    rw [List.map_map]; rfl
  have l1 : (sumColsW c (trip.map (·.1))).length = c :=
    sumColsW_length c _ (by
      intro r hr
      obtain ⟨x, hxw, hmap⟩ := List.mem_map.mp hr
      rw [← hmap]; exact (hlen x hxw).1)
  have l2 : (sumColsW c (trip.map (·.2.1))).length = c :=
    sumColsW_length c _ (by
      intro r hr
      obtain ⟨x, hxw, hmap⟩ := List.mem_map.mp hr
      rw [← hmap]; exact (hlen x hxw).2.1)
  have l3 : (sumColsW c (trip.map (·.2.2))).length = c :=
    sumColsW_length c _ (by
      intro r hr
      obtain ⟨x, hxw, hmap⟩ := List.mem_map.mp hr
      rw [← hmap]; exact (hlen x hxw).2.2)
  have hsegs : segUniformB c
      [{ loss := 0, seg_loss := 0, cls_loss := 0, tp_hard := sumColsW c (trip.map (·.1)),
         fp_hard := sumColsW c (trip.map (·.2.1)), fn_hard := sumColsW c (trip.map (·.2.2)),
         cls := none }] = true := by
    simp [segUniformB, l1, l2, l3]
  have hclss : clsNoneB
      [{ loss := 0, seg_loss := 0, cls_loss := 0, tp_hard := sumColsW c (trip.map (·.1)),
         fp_hard := sumColsW c (trip.map (·.2.1)), fn_hard := sumColsW c (trip.map (·.2.2)),
         cls := none }] = true := by
    simp [clsNoneB]
  rw [epoch_end_none_eq (c := c) _ hne2 hsegw hclsw,
    epoch_end_none_eq (c := c) _ (by simp) hsegs hclss]
  simp only [hm1, hm2, hm3, List.map_cons, List.map_nil]
  have s1 : sumColsW c [sumColsW c (trip.map (·.1))] = sumColsW c (trip.map (·.1)) := by
    rw [sumColsW_cons, sumColsW_nil]; exact vadd_replicate_zero _ c l1
  have s2 : sumColsW c [sumColsW c (trip.map (·.2.1))] = sumColsW c (trip.map (·.2.1)) := by
    rw [sumColsW_cons, sumColsW_nil]; exact vadd_replicate_zero _ c l2
  have s3 : sumColsW c [sumColsW c (trip.map (·.2.2))] = sumColsW c (trip.map (·.2.2)) := by
    rw [sumColsW_cons, sumColsW_nil]; exact vadd_replicate_zero _ c l3
  simp only [s1, s2, s3, Except.map, epochSummaryOf]

/-- Witness for C8 at two concrete per-step count triples. -/
theorem C8_sum_then_dice_witness :
    ([([1, 2], [0, 1], [1, 0]), ([2, 0], [1, 1], [0, 0])] : List (List ℕ × List ℕ × List ℕ)) ≠
      [] ∧
    (on_validation_epoch_end
      ([([1, 2], [0, 1], [1, 0]), ([2, 0], [1, 1], [0, 0])].map fun x =>
        { loss := 0, seg_loss := 0, cls_loss := 0, tp_hard := x.1, fp_hard := x.2.1,
          fn_hard := x.2.2, cls := none })).map
      (fun p => (p.1.dice_per_class, p.1.mean_fg_dice)) =
    (on_validation_epoch_end
        [{ loss := 0, seg_loss := 0, cls_loss := 0,
           tp_hard := sumColsW 2 ([([1, 2], [0, 1], [1, 0]), ([2, 0], [1, 1], [0, 0])].map (·.1)),
           fp_hard := sumColsW 2 ([([1, 2], [0, 1], [1, 0]), ([2, 0], [1, 1], [0, 0])].map (·.2.1)),
           fn_hard := sumColsW 2 ([([1, 2], [0, 1], [1, 0]), ([2, 0], [1, 1], [0, 0])].map (·.2.2)),
           cls := none }]).map (fun p => (p.1.dice_per_class, p.1.mean_fg_dice)) :=
  ⟨by decide, C8_sum_then_dice 2 [([1, 2], [0, 1], [1, 0]), ([2, 0], [1, 1], [0, 0])]
    (by decide) (by decide)⟩

/-- C9: whenever a classification prediction exists in the validation step,
the per-class confusion counts it produces satisfy, for every class index
below the class count, tp + fp + fn + tn = batch size, and the true
positives summed over all classes equal the recorded correct count. -/
theorem C9_confusion_invariants (rows : List (List ℚ)) (t3 : List (List (List ℚ)))
    (lossF : PyVal → List (List ℕ) → Option PyVal → List ℕ → List (String × ℚ))
    (b : Batch) (K : ℕ)
    (hrows : ∀ r ∈ rows, r.length = K) (hK : 0 < K)
    (hb : b.class_target.length = rows.length) :
    (validation_step { network := fun _ => PyVal.dict [("segmentation", PyVal.seg t3),
        ("classification", PyVal.cls rows)], lossFn := lossF } b).map (fun p => p.1.cls) =
      .ok (some (clsConfusion rows b.class_target)) ∧
    (∀ cI, cI < K →
      (clsConfusion rows b.class_target).cls_tp.getD cI 0 +
      (clsConfusion rows b.class_target).cls_fp.getD cI 0 +
      (clsConfusion rows b.class_target).cls_fn.getD cI 0 +
      (clsConfusion rows b.class_target).cls_tn.getD cI 0 = rows.length) ∧
    (clsConfusion rows b.class_target).cls_tp.sum =
      (clsConfusion rows b.class_target).cls_correct := by
  refine ⟨rfl, ?_, ?_⟩
  · intro cI hcI
    cases hr : rows with
    | nil =>
      subst hr
      simp [clsConfusion]
    | cons r rest =>
      have hK2 : ((rows.headD []).length) = K := by
        rw [hr]; exact hrows r (by rw [hr]; simp)
      have hptlen : ((rows.map argmaxIdx).zip b.class_target).length = rows.length := by
        rw [List.length_zip, List.length_map, hb, min_self]
      rw [← hr] at *
      simp only [clsConfusion, hK2]
      rw [range_map_getD _ 0 K cI hcI, range_map_getD _ 0 K cI hcI,
        range_map_getD _ 0 K cI hcI, range_map_getD _ 0 K cI hcI, ← hptlen]
      exact countP_confusion_partition _ cI
  · cases hr : rows with
    | nil =>
      subst hr
      simp [clsConfusion]
    | cons r rest =>
      have hK2 : ((rows.headD []).length) = K := by
        rw [hr]; exact hrows r (by rw [hr]; simp)
      rw [← hr] at *
      simp only [clsConfusion, hK2]
      refine sum_range_tp_eq K _ ?_
      intro x hx
      obtain ⟨hx1, _⟩ := List.of_mem_zip hx
      obtain ⟨row, hrow, hargmax⟩ := List.mem_map.mp hx1
      rw [← hargmax]
      have hrlen : row.length = K := hrows row hrow
      have hrne : row ≠ [] := by
        intro hcon
        rw [hcon] at hrlen
        simp at hrlen
        omega
      have := argmaxIdx_lt row hrne
      rw [hrlen] at this
      exact this

/-- Witness for C9 at one batch sample with three class logits. -/
theorem C9_confusion_invariants_witness :
    (validation_step trC bC).map (fun p => p.1.cls) =
      .ok (some (clsConfusion [[1, 2, 0]] [1])) ∧
    (clsConfusion [[1, 2, 0]] [1]).cls_tp.getD 0 0 + (clsConfusion [[1, 2, 0]] [1]).cls_fp.getD 0 0 +
      (clsConfusion [[1, 2, 0]] [1]).cls_fn.getD 0 0 +
      (clsConfusion [[1, 2, 0]] [1]).cls_tn.getD 0 0 = 1 ∧
    (clsConfusion [[1, 2, 0]] [1]).cls_tp.sum = (clsConfusion [[1, 2, 0]] [1]).cls_correct := by
  have h := C9_confusion_invariants [[1, 2, 0]] [[[1, 0], [0, 2]]]
    (fun _ _ _ _ => [("total_loss", 7), ("seg_loss", 5), ("cls_loss", 2), ("loss", 7)]) bC 3
    (by decide) (by decide) (by decide)
  exact ⟨h.1, h.2.1 0 (by decide), h.2.2⟩

/-- C10: the validation step never raises on loss mappings missing the
`total_loss`, `seg_loss` or `cls_loss` key: the step succeeds with the same
segmentation and classification metrics (which do not depend on the loss
mapping at all), each present key's value is recorded as is, and each
missing key is recorded as 0.0. -/
theorem C10_missing_loss_keys (t3 : List (List (List ℚ))) (rows : List (List ℚ))
    (lossF : PyVal → List (List ℕ) → Option PyVal → List ℕ → List (String × ℚ)) (b : Batch) :
    validation_step { network := fun _ => PyVal.dict [("segmentation", PyVal.seg t3),
        ("classification", PyVal.cls rows)], lossFn := lossF } b = .ok
      ({ loss := lget (lossF (PyVal.seg t3) b.target (some (PyVal.cls rows)) b.class_target)
           "total_loss"
         seg_loss := lget (lossF (PyVal.seg t3) b.target (some (PyVal.cls rows)) b.class_target)
           "seg_loss"
         cls_loss := lget (lossF (PyVal.seg t3) b.target (some (PyVal.cls rows)) b.class_target)
           "cls_loss"
         tp_hard := segTpHard t3 b.target, fp_hard := segFpHard t3 b.target
         fn_hard := segFnHard t3 b.target
         cls := some (clsConfusion rows b.class_target) }, [Effect.pdbSetTrace]) ∧
    (∀ (d : List (String × ℚ)) (k : String), (d.find? fun e => e.1 == k) = none →
      lget d k = 0) := by
  constructor
  · rfl
  · intro d k hfind
    simp [lget, hfind]

/-- Witness for C10: a loss mapping carrying only `seg_loss` makes the step
succeed, recording 0 for the missing `total_loss` and `cls_loss` entries and
5 for the present one, with the metric entries unaffected. -/
theorem C10_missing_loss_keys_witness :
    validation_step
      { network := fun _ => PyVal.dict [("segmentation", PyVal.seg [[[1, 0], [0, 2]]]),
          ("classification", PyVal.cls [[1, 2, 0]])]
        lossFn := fun _ _ _ _ => [("seg_loss", 5)] } bC = .ok
      ({ loss := 0, seg_loss := 5, cls_loss := 0, tp_hard := [1], fp_hard := [0], fn_hard := [1]
         cls := some { cls_tp := [0, 1, 0], cls_fp := [0, 0, 0], cls_fn := [0, 0, 0]
                       cls_tn := [1, 0, 1], cls_correct := 1, cls_total := 1 } },
        [Effect.pdbSetTrace]) ∧
    (([("seg_loss", 5)] : List (String × ℚ)).find? fun e => e.1 == "total_loss") = none ∧
    lget [("seg_loss", 5)] "total_loss" = 0 := by
  have h := C10_missing_loss_keys [[[1, 0], [0, 2]]] [[1, 2, 0]]
    (fun _ _ _ _ => [("seg_loss", 5)]) bC
  exact ⟨h.1.trans (by decide), by decide, h.2 [("seg_loss", 5)] "total_loss" (by decide)⟩

/-- Witness for C7 at a concrete two-step run partitioned over two workers. -/
theorem C7_single_equals_ddp_witness :
    ([stA] ≠ ([] : List StepResult)) ∧ ([stB] ≠ ([] : List StepResult)) ∧
    segUniformB 2 ([stA] ++ [stB]) = true ∧ clsUniformB 2 ([stA] ++ [stB]) = true ∧ 0 < 2 ∧
    (on_validation_epoch_end ([stA] ++ [stB])).map Prod.fst =
      (on_validation_epoch_end_ddp [[stA], [stB]]).map Prod.fst :=
  ⟨by decide, by decide, by decide, by decide, by decide,
    C7_single_equals_ddp 2 2 [stA] [stB] (by decide) (by decide) (by decide)
      (Or.inr ⟨by decide, by decide⟩)⟩

end MultiTaskTrainer
